import Mathlib

/-!
# plotng: scheduler and log extraction

A shallow embedding of `internal/server.go` (the tick loop `Server.createPlot`,
the admission step `Server.createNewPlot`) and of `internal/activePlot.go`
(the log reader `ActivePlot.processLogs`), followed by the properties that
were checked against it.

Conventions of the embedding

* A Go `string` is a sequence of bytes; log lines are lists of characters,
  one character per byte, so that `s[15:18]` and `s[4:]` are list slices.
* A `time.Time` is an integer number of nanoseconds since the Unix epoch.
  Every call of `time.Now()` is an input of the model.
* A run-time panic (index out of range, slice bounds out of range, nil
  dereference) is a value of `Panic`; the functions return `Except Panic _`.
* `map[int64]*ActivePlot` is an association list with one entry per key. Go
  leaves the iteration order of a map unspecified; the model iterates in list
  order and nothing proved below depends on that order.
* A `*ActivePlot` has an identity that its fields do not determine (two jobs
  may carry the same `PlotId`). The field `ref` is that identity: the number
  of jobs allocated before it.
-/

namespace PlotNG

/-- A Go string, one character per byte. -/
abbrev GoString := List Char

/-- The run-time panics the embedded code can raise. -/
inductive Panic where
  | indexOutOfRange
  | sliceBoundsOutOfRange
  | nilDereference
  deriving DecidableEq, Repr

/-- Equality of results is decidable. -/
instance instDecidableEqExcept {ε α : Type} [DecidableEq ε] [DecidableEq α] :
    DecidableEq (Except ε α)
  | .ok a, .ok b =>
    if h : a = b then isTrue (by rw [h]) else isFalse (fun h' => h (by cases h'; rfl))
  | .error a, .error b =>
    if h : a = b then isTrue (by rw [h]) else isFalse (fun h' => h (by cases h'; rfl))
  | .ok _, .error _ => isFalse (fun h' => by cases h')
  | .error _, .ok _ => isFalse (fun h' => by cases h')

/-- Constant `PlotRunning` (iota 0) of activePlot.go. -/
def PlotRunning : Int := 0

/-- Constant `PlotError` (iota 1) of activePlot.go. -/
def PlotError : Int := 1

/-- Constant `PlotFinished` (iota 2) of activePlot.go. -/
def PlotFinished : Int := 2

/-- The struct `ActivePlot` of activePlot.go. `StartTime`, `EndTime` and the
lock carry no information used below and are left out; `ref` is the identity
of the pointer. -/
structure ActivePlot where
  ref : Nat
  PlotId : Int
  TargetDir : String
  PlotDir : String
  Fingerprint : String
  Phase : GoString
  Tail : List GoString
  State : Int
  Id : GoString
  deriving DecidableEq, Repr

/-- Modelled from the spec: the declaration of the type `Config` is not among
the sources; these are the fields server.go reads from it (parallelism limit,
scratch list, destination list, stagger minutes, credential, log flag). -/
structure Config where
  NumberOfParallelPlots : Int
  TempDirectory : List String
  TargetDirectory : List String
  StaggeringDelay : Int
  Fingerprint : String
  ShowPlotLog : Bool
  deriving DecidableEq, Repr

/-- The struct `Server` of server.go. `config` is an input of every tick
(see `Tick`); `nextRef` counts the `ActivePlot` values allocated so far. -/
structure Server where
  active : List (Int × ActivePlot)
  archive : List ActivePlot
  currentTemp : Int
  currentTarget : Int
  targetDelayStartTime : Int
  nextRef : Nat
  deriving DecidableEq, Repr

/-- The zero `time.Time` (January 1, year 1, 00:00 UTC) in nanoseconds since
the Unix epoch. -/
def zeroTime : Int := -62135596800000000000

/-- The server as `ProcessLoop` sets it up before the first tick. -/
def Server.init : Server :=
  { active := [], archive := [], currentTemp := 0, currentTarget := 0,
    targetDelayStartTime := zeroTime, nextRef := 0 }

/-- Two-complement wrap of an integer into the range of `int64`. -/
def wrapInt64 (x : Int) : Int := (x + 2 ^ 63) % 2 ^ 64 - 2 ^ 63

/-- The expression `time.Duration(d) * time.Minute`, in nanoseconds. -/
def minutes (d : Int) : Int := wrapInt64 (d * 60000000000)

/-- The method `Time.Unix`: whole seconds since the epoch. -/
def unix (t : Int) : Int := t / 1000000000

/-- Indexing `xs[i]` with a Go `int`. -/
def index (xs : List String) (i : Int) : Except Panic String :=
  if 0 ≤ i then
    match xs.get? i.toNat with
    | some x => .ok x
    | none => .error .indexOutOfRange
  else .error .indexOutOfRange

/-- Deleting a key, `delete(m, k)`. -/
def mapDelete (m : List (Int × ActivePlot)) (k : Int) : List (Int × ActivePlot) :=
  m.filter (fun e => decide (e.1 ≠ k))

/-- Assigning a key, `m[k] = v`: an entry with the same key is replaced. -/
def mapSet (m : List (Int × ActivePlot)) (k : Int) (v : ActivePlot) :
    List (Int × ActivePlot) :=
  mapDelete m k ++ [(k, v)]

/-- The readings of `time.Now()` during one call of `createNewPlot`: `check`
is the reading compared with the stagger deadline, `act` the later reading
used either for the new deadline or for the time stamp of the new job. -/
structure Clock where
  check : Int
  act : Int
  deriving DecidableEq, Repr

/-- The method `Server.createNewPlot`. The second component of the result is the
job whose `RunPlot` was started, if any. -/
def createNewPlot (server : Server) (config : Config) (now : Clock) :
    Except Panic (Server × Option ActivePlot) :=
  if config.TempDirectory.length = 0 ∨ config.TargetDirectory.length = 0 then
    .ok (server, none)
  else if now.check < server.targetDelayStartTime then
    .ok (server, none)
  else if server.currentTarget ≥ config.TargetDirectory.length then
    .ok ({ server with
            currentTarget := 0
            targetDelayStartTime := now.act + minutes config.StaggeringDelay }, none)
  else
    match index config.TempDirectory server.currentTemp with
    | .error e => .error e
    | .ok plotDir =>
      let temp := server.currentTemp + 1
      let temp := if temp ≥ config.TempDirectory.length then 0 else temp
      match index config.TargetDirectory server.currentTarget with
      | .error e => .error e
      | .ok targetDir =>
        let plot : ActivePlot :=
          { ref := server.nextRef
            PlotId := unix now.act
            TargetDir := targetDir
            PlotDir := plotDir
            Fingerprint := config.Fingerprint
            Phase := ['N', 'A']
            Tail := []
            State := PlotRunning
            Id := [] }
        .ok ({ server with
                currentTemp := temp
                currentTarget := server.currentTarget + 1
                active := mapSet server.active plot.PlotId plot
                nextRef := server.nextRef + 1 }, some plot)

/-- The inputs of one tick: the policy `CurrentConfig` left by `ProcessConfig`
(`none` is nil), the clock readings of the admission step, and the value of
the field `State` that the loop reads from each job, by identity. -/
structure Tick where
  config : Option Config
  now : Clock
  observe : Nat → Int

/-- One iteration of the loop over `server.active` in `createPlot`. -/
def reconcileStep (observe : Nat → Int) (server : Server) (e : Int × ActivePlot) : Server :=
  let plot := e.2
  if observe plot.ref = PlotFinished ∨ observe plot.ref = PlotError then
    { server with
        archive := server.archive ++ [{ plot with State := observe plot.ref }]
        active := mapDelete server.active plot.PlotId }
  else server

/-- The loop over `server.active` in `createPlot`; its body reads
`server.config.CurrentConfig.ShowPlotLog`, which dereferences a nil policy. -/
def reconcile (server : Server) (tick : Tick) : Except Panic Server :=
  match server.active, tick.config with
  | [], _ => .ok server
  | _ :: _, none => .error .nilDereference
  | e :: es, some _ => .ok ((e :: es).foldl (reconcileStep tick.observe) server)

/-- The first part of `createPlot`: when the policy is present and fewer jobs
are active than it allows, one admission attempt. -/
def admission (server : Server) (tick : Tick) : Except Panic (Server × Option ActivePlot) :=
  match tick.config with
  | none => .ok (server, none)
  | some config =>
    if (server.active.length : Int) < config.NumberOfParallelPlots then
      createNewPlot server config tick.now
    else .ok (server, none)

/-- The method `Server.createPlot`: one tick, the admission part and then the
loop over the active jobs. The second component is the job admitted by the
tick, if any. -/
def createPlot (server : Server) (tick : Tick) : Except Panic (Server × Option ActivePlot) :=
  match admission server tick with
  | .error e => .error e
  | .ok (s, job) =>
    match reconcile s tick with
    | .error e => .error e
    | .ok s' => .ok (s', job)

/-- A sequence of ticks, as driven by `ProcessLoop`; the list in the result
has, for every tick, the job it admitted. -/
def runTicks (server : Server) : List Tick → Except Panic (Server × List (Option ActivePlot))
  | [] => .ok (server, [])
  | t :: ts =>
    match createPlot server t with
    | .error e => .error e
    | .ok (s, job) =>
      match runTicks s ts with
      | .error e => .error e
      | .ok (s', jobs) => .ok (s', job :: jobs)

/-- A sequence of admission attempts under one policy; the list in the result
has, for every attempt, the job it admitted. -/
def runAttempts (config : Config) (server : Server) :
    List Clock → Except Panic (Server × List (Option ActivePlot))
  | [] => .ok (server, [])
  | c :: cs =>
    match createNewPlot server config c with
    | .error e => .error e
    | .ok (s, job) =>
      match runAttempts config s cs with
      | .error e => .error e
      | .ok (s', jobs) => .ok (s', job :: jobs)

/-- The function `strings.HasPrefix`. -/
def hasPrefix (s p : GoString) : Bool := p.isPrefixOf s

/-- The slice expression `s[lo:hi]`. -/
def slice (s : GoString) (lo hi : Nat) : Except Panic GoString :=
  if lo ≤ hi ∧ hi ≤ s.length then .ok ((s.drop lo).take (hi - lo))
  else .error .sliceBoundsOutOfRange

/-- The slice expression `s[lo:]`. -/
def sliceFrom (s : GoString) (lo : Nat) : Except Panic GoString :=
  if lo ≤ s.length then .ok (s.drop lo) else .error .sliceBoundsOutOfRange

/-- The function `strings.TrimSuffix`. -/
def trimSuffix (s suffix : GoString) : GoString :=
  if suffix.isSuffixOf s then s.take (s.length - suffix.length) else s

/-- The marker of a phase line. -/
def phaseMarker : GoString := "Starting phase ".toList

/-- The marker of an identifier line. -/
def idMarker : GoString := "ID: ".toList

/-- The body of the loop of `ActivePlot.processLogs` for one line `s` that
`ReadString` returned without error. -/
def processLine (ap : ActivePlot) (s : GoString) : Except Panic ActivePlot :=
  let withPhase : Except Panic ActivePlot :=
    if hasPrefix s phaseMarker then
      match slice s 15 18 with
      | .error e => .error e
      | .ok p => .ok { ap with Phase := p }
    else .ok ap
  match withPhase with
  | .error e => .error e
  | .ok ap1 =>
    let withId : Except Panic ActivePlot :=
      if hasPrefix s idMarker then
        match sliceFrom s 4 with
        | .error e => .error e
        | .ok r => .ok { ap1 with Id := trimSuffix r ['\n'] }
      else .ok ap1
    match withId with
    | .error e => .error e
    | .ok ap2 =>
      let tail := ap2.Tail ++ [s]
      let tail := if tail.length > 10 then tail.drop (tail.length - 10) else tail
      .ok { ap2 with Tail := tail }

/-- The loop of `ActivePlot.processLogs` over the lines read so far. -/
def processLines (ap : ActivePlot) : List GoString → Except Panic ActivePlot
  | [] => .ok ap
  | s :: rest =>
    match processLine ap s with
    | .error e => .error e
    | .ok ap1 => processLines ap1 rest

/-- The lines `reader.ReadString('\n')` returns without error on a stream:
every maximal piece that ends with a newline; what follows the last newline
comes with an error and ends the loop. `cur` is the piece read so far,
reversed. -/
def readLinesAux (cur : GoString) : GoString → List GoString
  | [] => []
  | c :: rest =>
    if c = '\n' then (c :: cur).reverse :: readLinesAux [] rest
    else readLinesAux (c :: cur) rest

/-- The lines of a stream, see `readLinesAux`. -/
def readLines (stream : GoString) : List GoString := readLinesAux [] stream

/-- The method `ActivePlot.processLogs` on the whole content of a stream. -/
def processLogs (ap : ActivePlot) (stream : GoString) : Except Panic ActivePlot :=
  processLines ap (readLines stream)

/-- The scratch directories of the jobs admitted by a sequence of attempts or
ticks, in the order of admission. -/
def admittedPlotDirs (jobs : List (Option ActivePlot)) : List String :=
  (jobs.filterMap id).map (fun p => p.PlotDir)

/-- The example policy of the specification: two scratch directories, two
destinations, two parallel jobs, five minutes of stagger. -/
def examplePolicy : Config :=
  { NumberOfParallelPlots := 2, TempDirectory := ["/s0", "/s1"],
    TargetDirectory := ["/d0", "/d1"], StaggeringDelay := 5,
    Fingerprint := "fp", ShowPlotLog := false }

/-- One minute in nanoseconds, `time.Minute`. -/
def minute : Int := 60000000000

/-- A clock whose two readings are both `k` minutes after the epoch. -/
def clockAt (k : Int) : Clock := { check := k * minute, act := k * minute }

/-- A clock `k` minutes after the epoch whose second reading is one microsecond
after the first. -/
def clockGap (k : Int) : Clock := { check := k * minute, act := k * minute + 1000 }

/-- The example policy with a stagger of 153 722 868 minutes, the least number of
minutes whose nanoseconds exceed the range of `time.Duration`. -/
def overflowPolicy : Config := { examplePolicy with StaggeringDelay := 153722868 }

/-- A job as `createNewPlot` creates it, with identity `ref` and key `id`. -/
def newPlot (ref : Nat) (id : Int) (plotDir targetDir : String) : ActivePlot :=
  { ref := ref, PlotId := id, TargetDir := targetDir, PlotDir := plotDir,
    Fingerprint := "fp", Phase := ['N', 'A'], Tail := [], State := PlotRunning, Id := [] }

/-- Every job is still running. -/
def allRunning : Nat → Int := fun _ => PlotRunning

/-- A tick `k` minutes after the epoch. -/
def tickAt (config : Option Config) (k : Int) (observe : Nat → Int) : Tick :=
  { config := config, now := clockAt k, observe := observe }

/-- Eleven log lines, the first of which is a phase line. -/
def elevenLines : List GoString :=
  ["Starting phase 1/4: Forward Propagation\n".toList, "l2\n".toList, "l3\n".toList,
   "l4\n".toList, "l5\n".toList, "l6\n".toList, "l7\n".toList, "l8\n".toList,
   "l9\n".toList, "l10\n".toList, "ID: abc123\n".toList]

/-- A server with one running job. -/
def oneActive : Server :=
  { Server.init with
      active := [(60, newPlot 0 60 "/s0" "/d0")]
      currentTemp := 1
      currentTarget := 1
      nextRef := 1 }

/-- Two ticks between which the policy is refreshed with a shorter scratch list. -/
def shrinkingScratch : List Tick :=
  [tickAt (some examplePolicy) 1 allRunning,
   tickAt (some { examplePolicy with TempDirectory := ["/s0"] }) 2 allRunning]

/-- The identities of the jobs in the active set. -/
def activeRefs (s : Server) : List Nat := s.active.map (fun e => e.2.ref)

/-- The identities of the jobs in the archive, in the order of archival. -/
def archiveRefs (s : Server) : List Nat := s.archive.map (fun p => p.ref)

/-- The status values for which the loop of `createPlot` archives a job. -/
def terminal (state : Int) : Prop := state = PlotFinished ∨ state = PlotError

instance instDecidableTerminal (state : Int) : Decidable (terminal state) :=
  inferInstanceAs (Decidable (state = PlotFinished ∨ state = PlotError))

/-- The keys of the active map are distinct and every job is stored under its
own `PlotId`. -/
def WellKeyed (s : Server) : Prop :=
  (s.active.map Prod.fst).Nodup ∧ ∀ e ∈ s.active, e.2.PlotId = e.1

/-- Every job allocated so far is exactly once in the active set or in the
archive, and nothing else is. -/
def EachOnce (s : Server) : Prop :=
  ∀ r, (activeRefs s).count r + (archiveRefs s).count r = if r < s.nextRef then 1 else 0

/-- Two ticks whose admissions fall into the same wall-clock second (second 60):
one at minute 1, one half a second later. -/
def sameSecond : List Tick :=
  [{ config := some examplePolicy, now := { check := 60000000000, act := 60000000000 },
     observe := allRunning },
   { config := some examplePolicy, now := { check := 60500000000, act := 60500000000 },
     observe := allRunning }]

/-- Job 0 has finished, every other job is still running. -/
def firstFinished : Nat → Int := fun r => if r = 0 then PlotFinished else PlotRunning

/-- The example of the specification, ticks one minute apart: two admissions,
job 0 is seen finished at tick 3, and six more ticks. -/
def exampleTicks : List Tick :=
  [tickAt (some examplePolicy) 1 allRunning, tickAt (some examplePolicy) 2 allRunning,
   tickAt (some examplePolicy) 3 firstFinished, tickAt (some examplePolicy) 4 firstFinished,
   tickAt (some examplePolicy) 5 firstFinished, tickAt (some examplePolicy) 6 firstFinished,
   tickAt (some examplePolicy) 7 firstFinished, tickAt (some examplePolicy) 8 firstFinished,
   tickAt (some examplePolicy) 9 firstFinished]

/-- Three ticks; before the third the policy is refreshed with a parallelism
limit of 1 while two jobs are running. -/
def shrinkingLimit : List Tick :=
  [tickAt (some examplePolicy) 1 allRunning, tickAt (some examplePolicy) 2 allRunning,
   tickAt (some { examplePolicy with NumberOfParallelPlots := 1 }) 3 allRunning]

/-- A tick under the example policy with the clock readings `now`. -/
def scenarioTick (now : Clock) (observe : Nat → Int) : Tick :=
  { config := some examplePolicy, now := now, observe := observe }

/-- The example run up to the wraparound: ticks 1 and 2 with the clocks `c1` and
`c2`, the ticks `idle` during which both jobs are running, the tick `cf` that
sees job 0 finished and the tick `cw` after it. -/
def scenarioStart (c1 c2 : Clock) (idle : List Clock) (cf cw : Clock) : List Tick :=
  [scenarioTick c1 allRunning, scenarioTick c2 allRunning] ++
    (idle.map (fun c => scenarioTick c allRunning) ++
      [scenarioTick cf firstFinished, scenarioTick cw firstFinished])

/-- The example run: `scenarioStart`, then the ticks `cool` and the tick `cr`,
all of which see job 0 finished and job 1 running. -/
def scenarioRun (c1 c2 : Clock) (idle : List Clock) (cf cw : Clock) (cool : List Clock)
    (cr : Clock) : List Tick :=
  scenarioStart c1 c2 idle cf cw ++
    (cool.map (fun c => scenarioTick c firstFinished) ++ [scenarioTick cr firstFinished])

/-- The scratch and destination directory of every admitted job, tick by tick. -/
def admittedDirs (jobs : List (Option ActivePlot)) : List (Option (String × String)) :=
  jobs.map (fun j => j.map (fun p => (p.PlotDir, p.TargetDir)))

/-- The example run after tick 1: job 0, with the key `k1`, is running. -/
def firstRunning (k1 : Int) : Server :=
  { active := [(k1, newPlot 0 k1 "/s0" "/d0")]
    archive := []
    currentTemp := 1
    currentTarget := 1
    targetDelayStartTime := zeroTime
    nextRef := 1 }

/-- The example run after tick 2: two running jobs with the keys `k1` and `k2`,
the destination cursor at the length of the destination list. -/
def bothRunning (k1 k2 : Int) : Server :=
  { active := [(k1, newPlot 0 k1 "/s0" "/d0"), (k2, newPlot 1 k2 "/s1" "/d1")]
    archive := []
    currentTemp := 0
    currentTarget := 2
    targetDelayStartTime := zeroTime
    nextRef := 2 }

/-- The example run after the tick that sees job 0 finished. -/
def oneFinished (k1 k2 : Int) : Server :=
  { active := [(k2, newPlot 1 k2 "/s1" "/d1")]
    archive := [{ newPlot 0 k1 "/s0" "/d0" with State := PlotFinished }]
    currentTemp := 0
    currentTarget := 2
    targetDelayStartTime := zeroTime
    nextRef := 2 }

/-- The example run after the wraparound, which set the stagger deadline. -/
def afterWraparound (k1 k2 deadline : Int) : Server :=
  { active := [(k2, newPlot 1 k2 "/s1" "/d1")]
    archive := [{ newPlot 0 k1 "/s0" "/d0" with State := PlotFinished }]
    currentTemp := 0
    currentTarget := 0
    targetDelayStartTime := deadline
    nextRef := 2 }

/-- The example run after the admission of job 2, with the key `k3`. -/
def afterReadmission (k1 k2 k3 deadline : Int) : Server :=
  { active := [(k2, newPlot 1 k2 "/s1" "/d1"), (k3, newPlot 2 k3 "/s0" "/d0")]
    archive := [{ newPlot 0 k1 "/s0" "/d0" with State := PlotFinished }]
    currentTemp := 1
    currentTarget := 1
    targetDelayStartTime := deadline
    nextRef := 3 }

/-- The example run with clock readings a microsecond apart within a tick: ticks
at minutes 1 and 2, one idle tick at minute 3, job 0 seen finished at minute 4,
the wraparound at minute 5, five ticks at minutes 6 to 10 and a tick at minute
11. -/
def gapRun : List Tick :=
  scenarioRun (clockGap 1) (clockGap 2) [clockGap 3] (clockGap 4) (clockGap 5)
    [clockGap 6, clockGap 7, clockGap 8, clockGap 9, clockGap 10] (clockGap 11)

/-- The locks of the program: `Server.lock`, `PlotConfig.Lock` and the lock of
one job, `ActivePlot.lock`. -/
inductive LockName where
  | serverLock
  | configLock
  | plotLock
  deriving DecidableEq, Repr

/-- The shared variables the code assigns: the fields of `Server` and the fields
of one job that `processLogs` writes. -/
inductive Variable where
  | active
  | archive
  | currentTemp
  | currentTarget
  | targetDelayStartTime
  | phase
  | id
  | tail
  deriving DecidableEq, Repr

/-- What one thread does to locks and shared variables, in program order. -/
inductive Event where
  | lock (l : LockName)
  | unlock (l : LockName)
  | rlock (l : LockName)
  | runlock (l : LockName)
  | write (v : Variable)
  deriving DecidableEq, Repr

/-- The lock that the specification assigns to a variable. -/
def lockOf : Variable → LockName
  | .phase => .plotLock
  | .id => .plotLock
  | .tail => .plotLock
  | _ => .serverLock

/-- Whether every write of a trace happens while the thread holds the lock of
the written variable exclusively; `held` are the locks held at the start. -/
def guarded (held : List LockName) : List Event → Bool
  | [] => true
  | .lock l :: es => guarded (l :: held) es
  | .unlock l :: es => guarded (held.erase l) es
  | .write v :: es => decide (lockOf v ∈ held) && guarded held es
  | .rlock _ :: es => guarded held es
  | .runlock _ :: es => guarded held es

/-- The events of the loop body of `ActivePlot.processLogs` for one line, in
the order of the statements: the assignment of `Phase`, the assignment of `Id`,
then `Lock`, the assignments of `Tail` and `Unlock`. A panic of the slice ends
the trace. -/
def processLineEvents (ap : ActivePlot) (s : GoString) : List Event :=
  if hasPrefix s phaseMarker ∧ ¬ 18 ≤ s.length then []
  else
    (if hasPrefix s phaseMarker then [.write .phase] else []) ++
    (if hasPrefix s idMarker then [.write .id] else []) ++
    [.lock .plotLock, .write .tail] ++
    (if (ap.Tail ++ [s]).length > 10 then [.write .tail] else []) ++
    [.unlock .plotLock]

/-- The events of `Server.createNewPlot`: `Lock` first, the deferred `Unlock`
last, in between the assignments of the branch taken. -/
def createNewPlotEvents (server : Server) (config : Config) (now : Clock) : List Event :=
  [.lock .serverLock] ++
  (if config.TempDirectory.length = 0 ∨ config.TargetDirectory.length = 0 then []
   else if now.check < server.targetDelayStartTime then []
   else if server.currentTarget ≥ config.TargetDirectory.length then
     [.write .currentTarget, .write .targetDelayStartTime]
   else
     match index config.TempDirectory server.currentTemp with
     | .error _ => []
     | .ok _ =>
       [.write .currentTemp] ++
       (if server.currentTemp + 1 ≥ config.TempDirectory.length then [.write .currentTemp]
        else []) ++
       (match index config.TargetDirectory server.currentTarget with
        | .error _ => []
        | .ok _ => [.write .currentTarget, .write .active])) ++
  [.unlock .serverLock]

/-- The events of `Server.createPlot`: the admission part between `RLock` and
`RUnlock` of the policy lock, then for every active job seen in a terminal
state the append to `archive` and the `delete` from `active`. -/
def createPlotEvents (server : Server) (tick : Tick) : List Event :=
  match tick.config with
  | none => []
  | some config =>
    [.rlock .configLock] ++
    (if (server.active.length : Int) < config.NumberOfParallelPlots then
       createNewPlotEvents server config tick.now
     else []) ++
    [.runlock .configLock] ++
    (match admission server tick with
     | .error _ => []
     | .ok (s, _) =>
       (s.active.map (fun e =>
         if tick.observe e.2.ref = PlotFinished ∨ tick.observe e.2.ref = PlotError then
           [Event.write .archive, Event.write .active]
         else [])).flatten)

/-! ## Properties -/

theorem mapDelete_length_le (m : List (Int × ActivePlot)) (k : Int) :
    (mapDelete m k).length ≤ m.length := by
  unfold mapDelete
  exact List.length_filter_le _ _

theorem mapSet_length_le (m : List (Int × ActivePlot)) (k : Int) (v : ActivePlot) :
    (mapSet m k v).length ≤ m.length + 1 := by
  unfold mapSet
  have := mapDelete_length_le m k
  simp only [List.length_append, List.length_singleton]
  omega

theorem reconcileStep_active_le (observe : Nat → Int) (s : Server) (e : Int × ActivePlot) :
    (reconcileStep observe s e).active.length ≤ s.active.length := by
  unfold reconcileStep
  dsimp only
  split
  · exact mapDelete_length_le _ _
  · exact Nat.le_refl _

theorem reconcileFold_active_le (observe : Nat → Int) (es : List (Int × ActivePlot)) :
    ∀ s : Server, (es.foldl (reconcileStep observe) s).active.length ≤ s.active.length := by
  induction es with
  | nil => intro s; exact Nat.le_refl _
  | cons e es ih =>
    intro s
    rw [List.foldl_cons]
    exact Nat.le_trans (ih _) (reconcileStep_active_le observe s e)

theorem reconcile_active_le {s s' : Server} {tick : Tick} (h : reconcile s tick = .ok s') :
    s'.active.length ≤ s.active.length := by
  unfold reconcile at h
  split at h
  · cases h; exact Nat.le_refl _
  · cases h
  · rename_i e es c hact _
    cases h
    rw [← hact]
    exact reconcileFold_active_le _ _ _

theorem createNewPlot_active_le {s s' : Server} {config : Config} {now : Clock}
    {job : Option ActivePlot} (h : createNewPlot s config now = .ok (s', job)) :
    s'.active.length ≤ s.active.length + 1 := by
  unfold createNewPlot at h
  split at h
  · cases h; omega
  · split at h
    · cases h; omega
    · split at h
      · cases h; simp
      · split at h
        · cases h
        · dsimp only at h
          split at h
          · cases h
          · cases h
            exact mapSet_length_le _ _ _

theorem createPlot_ok {s s' : Server} {tick : Tick} {job : Option ActivePlot}
    (h : createPlot s tick = .ok (s', job)) :
    ∃ s1, admission s tick = .ok (s1, job) ∧ reconcile s1 tick = .ok s' := by
  unfold createPlot at h
  split at h
  · cases h
  · rename_i s1 j hadm
    split at h
    · cases h
    · rename_i s2 hrec
      cases h
      exact ⟨s1, hadm, hrec⟩

theorem admission_active_le {s s' : Server} {tick : Tick} {job : Option ActivePlot}
    (h : admission s tick = .ok (s', job)) :
    s'.active.length ≤ s.active.length ∨
      ∃ c, tick.config = some c ∧ (s'.active.length : Int) ≤ c.NumberOfParallelPlots := by
  unfold admission at h
  split at h
  · cases h; exact Or.inl (Nat.le_refl _)
  · rename_i c hc
    split at h
    · rename_i hlt
      have := createNewPlot_active_le h
      exact Or.inr ⟨c, hc, by omega⟩
    · cases h; exact Or.inl (Nat.le_refl _)

theorem createPlot_active_le {s s' : Server} {tick : Tick} {job : Option ActivePlot}
    (h : createPlot s tick = .ok (s', job)) :
    s'.active.length ≤ s.active.length ∨
      ∃ c, tick.config = some c ∧ (s'.active.length : Int) ≤ c.NumberOfParallelPlots := by
  obtain ⟨s1, hadm, hrec⟩ := createPlot_ok h
  have h2 := reconcile_active_le hrec
  rcases admission_active_le hadm with h1 | ⟨c, hc, h1⟩
  · exact Or.inl (Nat.le_trans h2 h1)
  · exact Or.inr ⟨c, hc, by omega⟩

theorem runTicks_active_le (bound : Int) :
    ∀ (ticks : List Tick) (s s' : Server) (jobs : List (Option ActivePlot)),
      (∀ t ∈ ticks, ∀ c, t.config = some c → c.NumberOfParallelPlots ≤ bound) →
      (s.active.length : Int) ≤ bound →
      runTicks s ticks = .ok (s', jobs) → (s'.active.length : Int) ≤ bound := by
  intro ticks
  induction ticks with
  | nil =>
    intro s s' jobs _ hs h
    simp only [runTicks] at h
    cases h
    exact hs
  | cons t ts ih =>
    intro s s' jobs hall hs h
    simp only [runTicks] at h
    split at h
    · cases h
    · rename_i s1 j hstep
      split at h
      · cases h
      · rename_i s2 js hrest
        cases h
        refine ih s1 s' js (fun t' ht' => hall t' (List.mem_cons_of_mem _ ht')) ?_ hrest
        rcases createPlot_active_le hstep with h1 | ⟨c, hc, h1⟩
        · omega
        · have := hall t (List.mem_cons_self _ _) c hc
          omega

theorem index_ok {xs : List String} {i : Int} {x : String} (h : index xs i = .ok x) :
    0 ≤ i ∧ i < xs.length ∧ xs.get? i.toNat = some x := by
  unfold index at h
  split at h
  · rename_i h0
    split at h
    · rename_i y hy
      cases h
      have := List.get?_eq_some.mp hy
      obtain ⟨hlt, _⟩ := this
      exact ⟨h0, by omega, hy⟩
    · cases h
  · cases h

theorem index_of_lt {xs : List String} {i : Int} (h0 : 0 ≤ i) (h1 : i < xs.length) :
    ∃ x, index xs i = .ok x ∧ xs.get? i.toNat = some x := by
  have hlt : i.toNat < xs.length := by omega
  refine ⟨xs.get ⟨i.toNat, hlt⟩, ?_, List.get?_eq_get hlt⟩
  unfold index
  rw [if_pos h0, List.get?_eq_get hlt]

/-- The new job and the new state of an admission. -/
theorem createNewPlot_some {s s' : Server} {config : Config} {now : Clock} {p : ActivePlot}
    (h : createNewPlot s config now = .ok (s', some p)) :
    config.TempDirectory.length ≠ 0 ∧ config.TargetDirectory.length ≠ 0 ∧
    ¬ now.check < s.targetDelayStartTime ∧
    0 ≤ s.currentTemp ∧ s.currentTemp < config.TempDirectory.length ∧
    0 ≤ s.currentTarget ∧ s.currentTarget < config.TargetDirectory.length ∧
    config.TempDirectory.get? s.currentTemp.toNat = some p.PlotDir ∧
    config.TargetDirectory.get? s.currentTarget.toNat = some p.TargetDir ∧
    p.ref = s.nextRef ∧ p.PlotId = unix now.act ∧ p.State = PlotRunning ∧
    p.Phase = ['N', 'A'] ∧ p.Fingerprint = config.Fingerprint ∧
    s' = { s with
            currentTemp :=
              if s.currentTemp + 1 ≥ config.TempDirectory.length then 0 else s.currentTemp + 1
            currentTarget := s.currentTarget + 1
            active := mapSet s.active p.PlotId p
            nextRef := s.nextRef + 1 } := by
  unfold createNewPlot at h
  split at h
  · cases h
  · rename_i hdirs
    split at h
    · cases h
    · rename_i hnow
      split at h
      · cases h
      · rename_i htarget
        split at h
        · cases h
        · rename_i plotDir hplot
          dsimp only at h
          split at h
          · cases h
          · rename_i targetDir htgt
            cases h
            obtain ⟨a1, a2, a3⟩ := index_ok hplot
            obtain ⟨b1, b2, b3⟩ := index_ok htgt
            refine ⟨?_, ?_, hnow, a1, a2, b1, b2, a3, b3, rfl, rfl, rfl, rfl, rfl, rfl⟩
            · omega
            · omega

/-- An attempt that admits nothing either leaves the state as it is or is the
wraparound of the destination cursor. -/
theorem createNewPlot_none {s s' : Server} {config : Config} {now : Clock}
    (h : createNewPlot s config now = .ok (s', none)) :
    s' = s ∨
    (¬ now.check < s.targetDelayStartTime ∧ s.currentTarget ≥ config.TargetDirectory.length ∧
      s' = { s with
              currentTarget := 0
              targetDelayStartTime := now.act + minutes config.StaggeringDelay }) := by
  unfold createNewPlot at h
  split at h
  · cases h; exact Or.inl rfl
  · split at h
    · cases h; exact Or.inl rfl
    · rename_i hnow
      split at h
      · rename_i htarget
        cases h
        exact Or.inr ⟨hnow, htarget, rfl⟩
      · split at h
        · cases h
        · dsimp only at h
          split at h
          · cases h
          · cases h

/-- An attempt before the stagger deadline changes nothing and admits nothing. -/
theorem createNewPlot_cooldown (s : Server) (config : Config) (now : Clock)
    (h : now.check < s.targetDelayStartTime) :
    createNewPlot s config now = .ok (s, none) := by
  unfold createNewPlot
  split
  · rfl
  · rfl

/-- The wraparound step. -/
theorem createNewPlot_wrap (s : Server) (config : Config) (now : Clock)
    (hT : config.TempDirectory ≠ []) (hD : config.TargetDirectory ≠ [])
    (hnow : ¬ now.check < s.targetDelayStartTime)
    (htarget : s.currentTarget ≥ config.TargetDirectory.length) :
    createNewPlot s config now =
      .ok ({ s with
              currentTarget := 0
              targetDelayStartTime := now.act + minutes config.StaggeringDelay }, none) := by
  unfold createNewPlot
  have h1 : ¬ (config.TempDirectory.length = 0 ∨ config.TargetDirectory.length = 0) := by
    simp [List.length_eq_zero, hT, hD]
  rw [if_neg h1, if_neg hnow, if_pos htarget]

/-- With both cursors in range and no cooldown, an attempt admits a job. -/
theorem createNewPlot_admits (s : Server) (config : Config) (now : Clock)
    (hnow : ¬ now.check < s.targetDelayStartTime)
    (ht0 : 0 ≤ s.currentTemp) (ht1 : s.currentTemp < config.TempDirectory.length)
    (hd0 : 0 ≤ s.currentTarget) (hd1 : s.currentTarget < config.TargetDirectory.length) :
    ∃ s' p, createNewPlot s config now = .ok (s', some p) := by
  obtain ⟨x, hx, _⟩ := index_of_lt ht0 ht1
  obtain ⟨y, hy, _⟩ := index_of_lt hd0 hd1
  have h1 : ¬ (config.TempDirectory.length = 0 ∨ config.TargetDirectory.length = 0) := by
    omega
  have h2 : ¬ s.currentTarget ≥ config.TargetDirectory.length := by omega
  unfold createNewPlot
  rw [if_neg h1, if_neg hnow, if_neg h2, hx]
  dsimp only
  rw [hy]
  exact ⟨_, _, rfl⟩

theorem runAttempts_cons {config : Config} {s s' : Server} {c : Clock} {cs : List Clock}
    {jobs : List (Option ActivePlot)} (h : runAttempts config s (c :: cs) = .ok (s', jobs)) :
    ∃ s1 j js, createNewPlot s config c = .ok (s1, j) ∧
      runAttempts config s1 cs = .ok (s', js) ∧ jobs = j :: js := by
  simp only [runAttempts] at h
  split at h
  · cases h
  · rename_i s1 j hstep
    split at h
    · cases h
    · rename_i s2 js hrest
      cases h
      exact ⟨s1, j, js, hstep, hrest, rfl⟩

theorem createNewPlot_none_currentTemp {s s' : Server} {config : Config} {now : Clock}
    (h : createNewPlot s config now = .ok (s', none)) : s'.currentTemp = s.currentTemp := by
  rcases createNewPlot_none h with h1 | ⟨_, _, h1⟩
  · rw [h1]
  · rw [h1]

theorem runAttempts_dirs (config : Config) :
    ∀ (attempts : List Clock) (s s' : Server) (jobs : List (Option ActivePlot)),
      runAttempts config s attempts = .ok (s', jobs) →
      (admittedPlotDirs jobs).map some =
        (List.range (admittedPlotDirs jobs).length).map
          (fun k => config.TempDirectory.get?
            ((s.currentTemp.toNat + k) % config.TempDirectory.length)) := by
  intro attempts
  induction attempts with
  | nil =>
    intro s s' jobs h
    simp only [runAttempts] at h
    cases h
    rfl
  | cons c cs ih =>
    intro s s' jobs h
    obtain ⟨s1, j, js, hstep, hrest, rfl⟩ := runAttempts_cons h
    have hih := ih s1 s' js hrest
    cases j with
    | none =>
      have hc := createNewPlot_none_currentTemp hstep
      have hd : admittedPlotDirs (none :: js) = admittedPlotDirs js := by
        simp [admittedPlotDirs]
      rw [hd, hih, hc]
    | some p =>
      obtain ⟨hT, _, _, h0, h1, _, _, hget, _, _, _, _, _, _, hs1⟩ := createNewPlot_some hstep
      have hd : admittedPlotDirs (some p :: js) = p.PlotDir :: admittedPlotDirs js := by
        simp [admittedPlotDirs]
      have hcur : s1.currentTemp.toNat =
          (s.currentTemp.toNat + 1) % config.TempDirectory.length := by
        rw [hs1]
        dsimp only
        split
        · rename_i hge
          have : s.currentTemp.toNat + 1 = config.TempDirectory.length := by omega
          rw [this, Nat.mod_self]
          rfl
        · rename_i hlt
          rw [Nat.mod_eq_of_lt (by omega)]
          omega
      rw [hd, List.map_cons, List.length_cons, List.range_succ_eq_map, List.map_cons,
        List.map_map, hih, hcur]
      congr 1
      · rw [Nat.add_zero, Nat.mod_eq_of_lt (by omega), hget]
      · apply List.map_congr_left
        intro k _
        simp only [Function.comp]
        congr 1
        rw [Nat.mod_add_mod, Nat.succ_eq_add_one, Nat.add_assoc, Nat.add_comm 1 k]

theorem wrapInt64_of_fits {x : Int} (h0 : -2 ^ 63 ≤ x) (h1 : x < 2 ^ 63) : wrapInt64 x = x := by
  unfold wrapInt64
  rw [Int.emod_eq_of_lt (by omega) (by omega)]
  omega

theorem createNewPlot_total (config : Config) (s : Server) (now : Clock)
    (ht0 : 0 ≤ s.currentTemp) (ht1 : s.currentTemp < config.TempDirectory.length)
    (hd0 : 0 ≤ s.currentTarget) :
    ∃ s' j, createNewPlot s config now = .ok (s', j) ∧
      0 ≤ s'.currentTemp ∧ s'.currentTemp < config.TempDirectory.length ∧
      0 ≤ s'.currentTarget := by
  by_cases hnow : now.check < s.targetDelayStartTime
  · exact ⟨s, none, createNewPlot_cooldown s config now hnow, ht0, ht1, hd0⟩
  · by_cases hD : config.TargetDirectory = []
    · refine ⟨s, none, ?_, ht0, ht1, hd0⟩
      unfold createNewPlot
      rw [if_pos (Or.inr (by rw [hD]; rfl))]
    · have hT : config.TempDirectory ≠ [] := by
        intro h
        rw [h] at ht1
        simp at ht1
        omega
      by_cases htarget : s.currentTarget ≥ config.TargetDirectory.length
      · exact ⟨_, none, createNewPlot_wrap s config now hT hD hnow htarget, ht0, ht1,
          Int.le_refl 0⟩
      · obtain ⟨s', p, h⟩ := createNewPlot_admits s config now hnow ht0 ht1 hd0 (by omega)
        obtain ⟨_, _, _, _, _, _, _, _, _, _, _, _, _, _, hs'⟩ := createNewPlot_some h
        refine ⟨s', some p, h, ?_, ?_, ?_⟩
        · rw [hs']; dsimp only; split <;> omega
        · rw [hs']; dsimp only; split <;> omega
        · rw [hs']; dsimp only; omega

theorem runAttempts_total (config : Config) :
    ∀ (attempts : List Clock) (s : Server),
      0 ≤ s.currentTemp → s.currentTemp < config.TempDirectory.length →
      0 ≤ s.currentTarget →
      ∃ r, runAttempts config s attempts = .ok r := by
  intro attempts
  induction attempts with
  | nil => intro s _ _ _; exact ⟨(s, []), rfl⟩
  | cons c cs ih =>
    intro s h0 h1 h2
    obtain ⟨s1, j, hstep, a0, a1, a2⟩ := createNewPlot_total config s c h0 h1 h2
    obtain ⟨⟨s2, js⟩, hrest⟩ := ih s1 a0 a1 a2
    refine ⟨(s2, j :: js), ?_⟩
    simp only [runAttempts, hstep, hrest]

/-- C2. Under one policy with a non-empty scratch list, a sequence of admission
attempts that starts with the scratch cursor in range runs to its end; the
scratch directories of the jobs it admits are, in order, the entries
`(c + k) mod |scratchDirs|` of the scratch list for `k = 0, 1, 2, ...`, where
`c` is the scratch cursor before the first attempt; and an attempt that admits no
job leaves the scratch cursor where it was. -/
theorem scratch_rotation (config : Config) (hne : config.TempDirectory ≠ [])
    (s : Server) (attempts : List Clock) :
    ((0 ≤ s.currentTemp ∧ s.currentTemp < config.TempDirectory.length ∧
        0 ≤ s.currentTarget) →
      ∃ r, runAttempts config s attempts = .ok r) ∧
    (∀ s' jobs, runAttempts config s attempts = .ok (s', jobs) →
      (admittedPlotDirs jobs).map some =
        (List.range (admittedPlotDirs jobs).length).map
          (fun k => config.TempDirectory.get?
            ((s.currentTemp.toNat + k) % config.TempDirectory.length))) ∧
    (∀ (s1 s2 : Server) (now : Clock),
      createNewPlot s1 config now = .ok (s2, none) → s2.currentTemp = s1.currentTemp) := by
  have _ := hne
  refine ⟨?_, ?_, ?_⟩
  · rintro ⟨h0, h1, h2⟩
    exact runAttempts_total config attempts s h0 h1 h2
  · intro s' jobs h
    exact runAttempts_dirs config attempts s s' jobs h
  · intro s1 s2 now h
    exact createNewPlot_none_currentTemp h

/-- The rotation of C2 on the example policy: five attempts, the third of which
is the wraparound of the destination cursor and the fourth of which falls into the
cooldown; the three admitted jobs get `/s0`, `/s1`, `/s0`. -/
theorem scratch_rotation_witness :
    examplePolicy.TempDirectory ≠ [] ∧
    (runAttempts examplePolicy Server.init
        [clockAt 1, clockAt 2, clockAt 3, clockAt 4, clockAt 8]).map
      (fun r => admittedPlotDirs r.2) = .ok ["/s0", "/s1", "/s0"] ∧
    (∀ s' jobs, runAttempts examplePolicy Server.init
        [clockAt 1, clockAt 2, clockAt 3, clockAt 4, clockAt 8] = .ok (s', jobs) →
      (admittedPlotDirs jobs).map some =
        (List.range (admittedPlotDirs jobs).length).map
          (fun k => examplePolicy.TempDirectory.get?
            ((Server.init.currentTemp.toNat + k) % examplePolicy.TempDirectory.length))) :=
  ⟨by decide, by decide,
    (scratch_rotation examplePolicy (by decide) Server.init
      [clockAt 1, clockAt 2, clockAt 3, clockAt 4, clockAt 8]).2.1⟩

theorem runAttempts_all_admitted (config : Config) :
    ∀ (attempts : List Clock) (s s' : Server) (jobs : List (Option ActivePlot)),
      runAttempts config s attempts = .ok (s', jobs) → (∀ j ∈ jobs, j ≠ none) →
      s'.currentTarget = s.currentTarget + attempts.length ∧
      s'.targetDelayStartTime = s.targetDelayStartTime ∧
      ∀ c ∈ attempts, ¬ c.check < s.targetDelayStartTime := by
  intro attempts
  induction attempts with
  | nil =>
    intro s s' jobs h _
    simp only [runAttempts] at h
    cases h
    exact ⟨by simp, rfl, by simp⟩
  | cons c cs ih =>
    intro s s' jobs h hall
    obtain ⟨s1, j, js, hstep, hrest, rfl⟩ := runAttempts_cons h
    cases j with
    | none => exact absurd rfl (hall none (List.mem_cons_self _ _))
    | some p =>
      obtain ⟨_, _, hnow, _, _, _, _, _, _, _, _, _, _, _, hs1⟩ := createNewPlot_some hstep
      obtain ⟨a, b, c'⟩ := ih s1 s' js hrest (fun j hj => hall j (List.mem_cons_of_mem _ hj))
      have e1 : s1.currentTarget = s.currentTarget + 1 := by rw [hs1]
      have e2 : s1.targetDelayStartTime = s.targetDelayStartTime := by rw [hs1]
      refine ⟨?_, ?_, ?_⟩
      · rw [a, e1, List.length_cons]; push_cast; omega
      · rw [b, e2]
      · intro x hx
        rcases List.mem_cons.mp hx with rfl | hx
        · exact hnow
        · rw [← e2]; exact c' x hx

theorem runAttempts_cooldown (config : Config) (s : Server) :
    ∀ later : List Clock, (∀ c ∈ later, c.check < s.targetDelayStartTime) →
      runAttempts config s later = .ok (s, later.map (fun _ => none)) := by
  intro later
  induction later with
  | nil => intro _; rfl
  | cons c cs ih =>
    intro h
    have h1 := createNewPlot_cooldown s config c (h c (List.mem_cons_self _ _))
    have h2 := ih (fun x hx => h x (List.mem_cons_of_mem _ hx))
    simp only [runAttempts, h1, h2, List.map_cons]

theorem minutes_of_fits {d : Int} (h0 : -2 ^ 63 ≤ d * minute) (h1 : d * minute < 2 ^ 63) :
    minutes d = d * minute := by
  unfold minute at h0 h1
  unfold minutes minute
  exact wrapInt64_of_fits h0 h1

/-- C3 fails when the stagger, in nanoseconds, leaves the range of `int64`:
with 153 722 868 minutes the product wraps, the deadline set by the wraparound
at minute 3 lies more than 9 * 10^18 nanoseconds before that moment and not
153 722 868 minutes after it, and the attempt at minute 4, far before that
moment plus the stagger, admits a job. -/
theorem stagger_overflow_admits_early :
    (runAttempts overflowPolicy Server.init [clockGap 1, clockGap 2, clockGap 3]).map
        (fun r => (admittedPlotDirs r.2, r.1.currentTarget, r.1.targetDelayStartTime)) =
      .ok (["/s0", "/s1"], 0, (clockGap 3).act - 9223371993709551616) ∧
    (clockGap 3).act - 9223371993709551616 ≠
      (clockGap 3).act + overflowPolicy.StaggeringDelay * minute ∧
    (clockGap 4).check < (clockGap 3).act + overflowPolicy.StaggeringDelay * minute ∧
    (runAttempts overflowPolicy Server.init
        [clockGap 1, clockGap 2, clockGap 3, clockGap 4]).map
        (fun r => r.2.map (fun j => j.map (fun p => (p.PlotDir, p.TargetDir)))) =
      .ok [some ("/s0", "/d0"), some ("/s1", "/d1"), none, some ("/s0", "/d0")] := by
  decide

/-- C3, as amended. Under one policy with non-empty directory lists whose
stagger, `staggerMinutes` times 60 000 000 000 nanoseconds, is in the range of
`int64`, starting with the destination cursor at 0: after `|destDirs|` attempts
that each admitted a job, the next attempt (its clock reading not earlier than
theirs) admits no job, sets the destination cursor to 0 and the stagger deadline
to its own clock reading plus `staggerMinutes` minutes and changes nothing else;
from there every attempt with a clock reading before that deadline admits no job
and leaves the whole state, cursors, deadline and active set, as it is. -/
theorem destination_rotation (config : Config)
    (hT : config.TempDirectory ≠ []) (hD : config.TargetDirectory ≠ [])
    (hfit0 : -2 ^ 63 ≤ config.StaggeringDelay * minute)
    (hfit1 : config.StaggeringDelay * minute < 2 ^ 63)
    (s : Server) (hs : s.currentTarget = 0)
    (attempts : List Clock) (hlen : attempts.length = config.TargetDirectory.length)
    (s1 : Server) (jobs : List (Option ActivePlot))
    (hrun : runAttempts config s attempts = .ok (s1, jobs))
    (hsucc : ∀ j ∈ jobs, j ≠ none)
    (next : Clock) (hclock : ∀ c ∈ attempts, c.check ≤ next.check) :
    createNewPlot s1 config next =
      .ok ({ s1 with
              currentTarget := 0
              targetDelayStartTime := next.act + config.StaggeringDelay * minute }, none) ∧
    (∀ later : List Clock,
      (∀ c ∈ later, c.check < next.act + config.StaggeringDelay * minute) →
      runAttempts config
          { s1 with
              currentTarget := 0
              targetDelayStartTime := next.act + config.StaggeringDelay * minute } later =
        .ok ({ s1 with
                currentTarget := 0
                targetDelayStartTime := next.act + config.StaggeringDelay * minute },
              later.map (fun _ => none))) := by
  obtain ⟨hcur, hdead, hchecks⟩ := runAttempts_all_admitted config attempts s s1 jobs hrun hsucc
  have hm := minutes_of_fits hfit0 hfit1
  refine ⟨?_, ?_⟩
  · rw [← hm]
    apply createNewPlot_wrap s1 config next hT hD
    · cases attempts with
      | nil =>
        exfalso
        apply hD
        exact List.length_eq_zero.mp hlen.symm
      | cons c cs =>
        have h1 := hchecks c (List.mem_cons_self _ _)
        have h2 := hclock c (List.mem_cons_self _ _)
        rw [hdead]
        omega
    · rw [hcur, hs, hlen]
      omega
  · intro later hlater
    exact runAttempts_cooldown config _ later hlater

/-- The rotation of C3 on the example policy: two admissions, then the
wraparound at minute 3, whose second clock reading is a microsecond after the
first, with the deadline five minutes after that reading. -/
theorem destination_rotation_witness :
    createNewPlot
        { Server.init with
            active :=
              [(60, { ref := 0, PlotId := 60, TargetDir := "/d0", PlotDir := "/s0",
                      Fingerprint := "fp", Phase := ['N', 'A'], Tail := [],
                      State := PlotRunning, Id := [] }),
               (120, { ref := 1, PlotId := 120, TargetDir := "/d1", PlotDir := "/s1",
                       Fingerprint := "fp", Phase := ['N', 'A'], Tail := [],
                       State := PlotRunning, Id := [] })]
            currentTarget := 2
            nextRef := 2 }
        examplePolicy (clockGap 3) =
      .ok ({ Server.init with
              active :=
                [(60, { ref := 0, PlotId := 60, TargetDir := "/d0", PlotDir := "/s0",
                        Fingerprint := "fp", Phase := ['N', 'A'], Tail := [],
                        State := PlotRunning, Id := [] }),
                 (120, { ref := 1, PlotId := 120, TargetDir := "/d1", PlotDir := "/s1",
                         Fingerprint := "fp", Phase := ['N', 'A'], Tail := [],
                         State := PlotRunning, Id := [] })]
              currentTarget := 0
              targetDelayStartTime := 3 * minute + 1000 + 5 * minute
              nextRef := 2 }, none) :=
  (destination_rotation examplePolicy (by decide) (by decide) (by decide) (by decide)
    Server.init rfl [clockGap 1, clockGap 2] rfl _ _ rfl (by decide) (clockGap 3)
    (by decide)).1

/-- The tail after one line, as `processLine` leaves it. -/
theorem processLine_tail {ap ap' : ActivePlot} {s : GoString} (h : processLine ap s = .ok ap') :
    ap'.Tail = (ap.Tail ++ [s]).drop ((ap.Tail ++ [s]).length - 10) := by
  unfold processLine at h
  dsimp only at h
  split at h
  · cases h
  · rename_i ap1 h1
    have e1 : ap1.Tail = ap.Tail := by
      split at h1
      · split at h1
        · cases h1
        · cases h1; rfl
      · cases h1; rfl
    split at h
    · cases h
    · rename_i ap2 h2
      have e2 : ap2.Tail = ap1.Tail := by
        split at h2
        · split at h2
          · cases h2
          · cases h2; rfl
        · cases h2; rfl
      cases h
      dsimp only
      rw [e2, e1]
      split
      · rfl
      · rename_i hle
        have : (ap.Tail ++ [s]).length - 10 = 0 := by omega
        rw [this, List.drop_zero]

/-- A line is processed without panic unless it carries the phase marker and is
shorter than 18 bytes. -/
theorem processLine_total (ap : ActivePlot) (s : GoString)
    (h : hasPrefix s phaseMarker = true → 18 ≤ s.length) :
    ∃ ap', processLine ap s = .ok ap' := by
  have hid : hasPrefix s idMarker = true → 4 ≤ s.length := by
    intro hp
    have := List.IsPrefix.length_le (List.isPrefixOf_iff_prefix.mp hp)
    simpa [idMarker] using this
  unfold processLine
  dsimp only
  by_cases hp : hasPrefix s phaseMarker = true
  · have h18 := h hp
    by_cases hi : hasPrefix s idMarker = true
    · have h4 := hid hi
      simp [hp, hi, slice, sliceFrom, h18, h4]
    · simp [hp, hi, slice, h18]
  · by_cases hi : hasPrefix s idMarker = true
    · have h4 := hid hi
      simp [hp, hi, sliceFrom, h4]
    · simp [hp, hi]

theorem processLines_tail :
    ∀ (lines : List GoString) (ap ap' : ActivePlot),
      processLines ap lines = .ok ap' →
      ap'.Tail = (ap.Tail ++ lines).drop ((ap.Tail ++ lines).length - 10) ∨
        10 < ap.Tail.length := by
  intro lines
  induction lines with
  | nil =>
    intro ap ap' h
    simp only [processLines] at h
    cases h
    by_cases hlen : 10 < ap.Tail.length
    · exact Or.inr hlen
    · left
      have : (ap.Tail ++ []).length - 10 = 0 := by simp; omega
      rw [this, List.drop_zero, List.append_nil]
  | cons s rest ih =>
    intro ap ap' h
    simp only [processLines] at h
    split at h
    · cases h
    · rename_i ap1 h1
      by_cases hlen : 10 < ap.Tail.length
      · exact Or.inr hlen
      · left
        have ht := processLine_tail h1
        have hl1 : ap1.Tail.length ≤ 10 := by
          rw [ht, List.length_drop]; omega
        rcases ih ap1 ap' h with hres | hbad
        · rw [hres, ht]
          have hd : (ap.Tail ++ [s]).length - 10 ≤ (ap.Tail ++ [s]).length := Nat.sub_le _ _
          rw [← List.drop_append_of_le_length hd, List.drop_drop]
          have e : ap.Tail ++ [s] ++ rest = ap.Tail ++ s :: rest := by simp
          rw [e]
          congr 1
          simp only [List.length_append, List.length_drop, List.length_cons, List.length_nil]
          omega
        · omega

theorem processLines_total :
    ∀ (lines : List GoString) (ap : ActivePlot),
      (∀ s ∈ lines, hasPrefix s phaseMarker = true → 18 ≤ s.length) →
      ∃ ap', processLines ap lines = .ok ap' := by
  intro lines
  induction lines with
  | nil => intro ap _; exact ⟨ap, rfl⟩
  | cons s rest ih =>
    intro ap h
    obtain ⟨ap1, h1⟩ := processLine_total ap s (h s (List.mem_cons_self _ _))
    obtain ⟨ap2, h2⟩ := ih ap1 (fun x hx => h x (List.mem_cons_of_mem _ hx))
    exact ⟨ap2, by simp only [processLines, h1, h2]⟩

/-- C4. Starting from an empty tail, after the lines read so far have been
processed the tail is the last `min n 10` of those `n` lines, in the order read,
so it never has more than 10 entries; and the lines are all processed unless one
of them carries the phase marker and is shorter than 18 bytes. -/
theorem tail_last_ten (ap : ActivePlot) (hempty : ap.Tail = []) (lines : List GoString) :
    (∀ ap', processLines ap lines = .ok ap' →
      ap'.Tail = lines.drop (lines.length - 10) ∧
      ap'.Tail.length = min lines.length 10) ∧
    ((∀ s ∈ lines, hasPrefix s phaseMarker = true → 18 ≤ s.length) →
      ∃ ap', processLines ap lines = .ok ap') := by
  refine ⟨?_, processLines_total lines ap⟩
  intro ap' h
  have ht : ap'.Tail = lines.drop (lines.length - 10) := by
    rcases processLines_tail lines ap ap' h with h1 | h1
    · rw [h1, hempty, List.nil_append]
    · rw [hempty] at h1
      simp at h1
  refine ⟨ht, ?_⟩
  rw [ht, List.length_drop]
  omega

/-- The tail of C4 after eleven lines: the first line is gone, the other ten are
kept in order. -/
theorem tail_last_ten_witness :
    (newPlot 0 60 "/s0" "/d0").Tail = [] ∧
    ∃ ap', processLines (newPlot 0 60 "/s0" "/d0") elevenLines = .ok ap' ∧
      ap'.Tail = elevenLines.drop 1 ∧ ap'.Tail.length = 10 := by
  have h := tail_last_ten (newPlot 0 60 "/s0" "/d0") rfl elevenLines
  obtain ⟨ap', hap⟩ := h.2 (by decide)
  have := h.1 ap' hap
  exact ⟨rfl, ap', hap, this.1, this.2⟩

/-- What `processLine` extracts from a line it processes without panic. -/
theorem processLine_extraction {ap ap' : ActivePlot} {s : GoString}
    (h : processLine ap s = .ok ap') :
    (hasPrefix s phaseMarker = true → 18 ≤ s.length ∧ ap'.Phase = (s.drop 15).take 3) ∧
    (hasPrefix s phaseMarker = false → ap'.Phase = ap.Phase) ∧
    (hasPrefix s idMarker = true → ap'.Id = trimSuffix (s.drop 4) ['\n']) ∧
    (hasPrefix s idMarker = false → ap'.Id = ap.Id) := by
  unfold processLine at h
  dsimp only at h
  split at h
  · cases h
  · rename_i ap1 h1
    have p1 : (hasPrefix s phaseMarker = true →
          18 ≤ s.length ∧ ap1.Phase = (s.drop 15).take 3) ∧
        (hasPrefix s phaseMarker = false → ap1.Phase = ap.Phase) ∧ ap1.Id = ap.Id := by
      by_cases hp : hasPrefix s phaseMarker = true
      · rw [if_pos hp] at h1
        unfold slice at h1
        by_cases hb : 15 ≤ 18 ∧ 18 ≤ s.length
        · rw [if_pos hb] at h1
          cases h1
          refine ⟨fun _ => ⟨hb.2, rfl⟩, ?_, rfl⟩
          intro hf
          rw [hp] at hf
          cases hf
        · rw [if_neg hb] at h1
          cases h1
      · rw [if_neg hp] at h1
        cases h1
        exact ⟨fun ht => absurd ht hp, fun _ => rfl, rfl⟩
    split at h
    · cases h
    · rename_i ap2 h2
      have p2 : (hasPrefix s idMarker = true → ap2.Id = trimSuffix (s.drop 4) ['\n']) ∧
          (hasPrefix s idMarker = false → ap2.Id = ap1.Id) ∧ ap2.Phase = ap1.Phase := by
        by_cases hi : hasPrefix s idMarker = true
        · rw [if_pos hi] at h2
          unfold sliceFrom at h2
          by_cases hb : 4 ≤ s.length
          · rw [if_pos hb] at h2
            cases h2
            refine ⟨fun _ => rfl, ?_, rfl⟩
            intro hf
            rw [hi] at hf
            cases hf
          · rw [if_neg hb] at h2
            cases h2
        · rw [if_neg hi] at h2
          cases h2
          exact ⟨fun ht => absurd ht hi, fun _ => rfl, rfl⟩
      cases h
      dsimp only
      obtain ⟨a1, a2, a3⟩ := p1
      obtain ⟨b1, b2, b3⟩ := p2
      refine ⟨?_, ?_, b1, ?_⟩
      · intro hp
        rw [b3]
        exact a1 hp
      · intro hp
        rw [b3]
        exact a2 hp
      · intro hi
        rw [b2 hi, a3]

/-- C6. A line that begins with the phase marker and has fewer than 18 bytes,
here `"Starting phase 1\n"` with 17, is not processed: the slice `s[15:18]`
panics, for every job. -/
theorem phase_line_too_short (ap : ActivePlot) :
    hasPrefix "Starting phase 1\n".toList phaseMarker = true ∧
    processLine ap "Starting phase 1\n".toList = .error .sliceBoundsOutOfRange :=
  ⟨rfl, rfl⟩

/-- A tick without policy on a server without active jobs changes nothing. -/
theorem createPlot_absent_idle (s : Server) (tick : Tick)
    (hc : tick.config = none) (ha : s.active = []) : createPlot s tick = .ok (s, none) := by
  unfold createPlot admission reconcile
  simp [hc, ha]

/-- C7. A tick without policy on a server with one running job does not
complete: the loop over the active jobs dereferences the nil policy. -/
theorem absent_policy_with_active_job :
    createPlot oneActive (tickAt none 2 allRunning) = .error .nilDereference := by
  decide

/-- C9. After a tick under a policy with two scratch directories the scratch
cursor is 1; when the policy is refreshed with a one-entry scratch list before the
next tick, that tick's admission indexes the list at 1 and panics. -/
theorem scratch_lookup_after_refresh :
    (runTicks Server.init (shrinkingScratch.take 1)).map (fun r => r.1.currentTemp) = .ok 1 ∧
    runTicks Server.init shrinkingScratch = .error .indexOutOfRange := by
  decide

theorem mapDelete_fresh {m : List (Int × ActivePlot)} {k : Int}
    (h : ∀ e ∈ m, e.1 ≠ k) : mapDelete m k = m := by
  unfold mapDelete
  apply List.filter_eq_self.mpr
  intro e he
  simpa using h e he

theorem mapDelete_middle {pre post : List (Int × ActivePlot)} {e : Int × ActivePlot}
    (h : ((pre ++ e :: post).map Prod.fst).Nodup) :
    mapDelete (pre ++ e :: post) e.1 = pre ++ post := by
  rw [List.map_append, List.map_cons, List.nodup_append] at h
  obtain ⟨_, h2, h3⟩ := h
  rw [List.nodup_cons] at h2
  have hpre : ∀ x ∈ pre, x.1 ≠ e.1 := by
    intro x hx heq
    exact h3 (List.mem_map_of_mem Prod.fst hx) (by rw [heq]; exact List.mem_cons_self _ _)
  have hpost : ∀ x ∈ post, x.1 ≠ e.1 := by
    intro x hx heq
    exact h2.1 (by rw [← heq]; exact List.mem_map_of_mem Prod.fst hx)
  unfold mapDelete
  rw [List.filter_append, List.filter_cons]
  have e1 := mapDelete_fresh hpre
  have e2 := mapDelete_fresh hpost
  unfold mapDelete at e1 e2
  rw [e1, e2]
  simp

/-- The loop of `createPlot` over a well-keyed active set: the jobs observed
in a terminal state are appended to the archive, in order, and the others stay. -/
theorem reconcileFold_spec (observe : Nat → Int) :
    ∀ (es pre : List (Int × ActivePlot)) (s : Server),
      s.active = pre ++ es → ((pre ++ es).map Prod.fst).Nodup →
      (∀ e ∈ es, e.2.PlotId = e.1) →
      es.foldl (reconcileStep observe) s =
        { s with
            active := pre ++ es.filter (fun e => decide (¬ terminal (observe e.2.ref)))
            archive := s.archive ++
              (es.filter (fun e => decide (terminal (observe e.2.ref)))).map
                (fun e => { e.2 with State := observe e.2.ref }) } := by
  intro es
  induction es with
  | nil =>
    intro pre s hact _ _
    simp only [List.foldl_nil, List.filter_nil, List.map_nil, List.append_nil]
    rw [← List.append_nil pre, ← hact]
  | cons e es ih =>
    intro pre s hact hnd hkey
    rw [List.foldl_cons]
    by_cases ht : terminal (observe e.2.ref)
    · have hstep : reconcileStep observe s e =
          { s with
              archive := s.archive ++ [{ e.2 with State := observe e.2.ref }]
              active := pre ++ es } := by
        unfold reconcileStep
        dsimp only
        have ht' : observe e.2.ref = PlotFinished ∨ observe e.2.ref = PlotError := ht
        rw [if_pos ht', hact, hkey e (List.mem_cons_self _ _), mapDelete_middle hnd]
      have hnd' : ((pre ++ es).map Prod.fst).Nodup := by
        rw [List.map_append] at hnd ⊢
        rw [List.map_cons] at hnd
        exact List.Nodup.sublist
          (List.Sublist.append_left (List.sublist_cons_self _ _) _) hnd
      rw [hstep, ih pre _ rfl hnd' (fun x hx => hkey x (List.mem_cons_of_mem _ hx))]
      simp [List.filter_cons, ht]
    · have hstep : reconcileStep observe s e = s := by
        unfold reconcileStep
        dsimp only
        have ht' : ¬ (observe e.2.ref = PlotFinished ∨ observe e.2.ref = PlotError) := ht
        rw [if_neg ht']
      have hact' : s.active = (pre ++ [e]) ++ es := by rw [hact]; simp
      have hnd' : (((pre ++ [e]) ++ es).map Prod.fst).Nodup := by
        rw [List.append_assoc]; exact hnd
      rw [hstep, ih (pre ++ [e]) s hact' hnd' (fun x hx => hkey x (List.mem_cons_of_mem _ hx))]
      simp [List.filter_cons, ht]

theorem reconcile_spec {s s' : Server} {tick : Tick} (h : reconcile s tick = .ok s')
    (hwk : WellKeyed s) :
    s' = { s with
            active := s.active.filter (fun e => decide (¬ terminal (tick.observe e.2.ref)))
            archive := s.archive ++
              (s.active.filter (fun e => decide (terminal (tick.observe e.2.ref)))).map
                (fun e => { e.2 with State := tick.observe e.2.ref }) } := by
  unfold reconcile at h
  split at h
  · rename_i hact
    cases h
    cases s
    simp only at hact
    subst hact
    simp
  · cases h
  · rename_i e es c hact _
    cases h
    rw [← hact]
    have := reconcileFold_spec tick.observe s.active [] s rfl hwk.1 hwk.2
    rw [this]
    simp

theorem admission_spec {s s1 : Server} {tick : Tick} {job : Option ActivePlot}
    (h : admission s tick = .ok (s1, job))
    (hfresh : ∀ e ∈ s.active, e.1 < unix tick.now.act) :
    s1.archive = s.archive ∧
    ((job = none ∧ s1.active = s.active ∧ s1.nextRef = s.nextRef) ∨
      ∃ p, job = some p ∧ p.ref = s.nextRef ∧ p.PlotId = unix tick.now.act ∧
        s1.active = s.active ++ [(p.PlotId, p)] ∧ s1.nextRef = s.nextRef + 1) := by
  have key : ∀ {c : Config}, createNewPlot s c tick.now = .ok (s1, job) →
      s1.archive = s.archive ∧
      ((job = none ∧ s1.active = s.active ∧ s1.nextRef = s.nextRef) ∨
        ∃ p, job = some p ∧ p.ref = s.nextRef ∧ p.PlotId = unix tick.now.act ∧
          s1.active = s.active ++ [(p.PlotId, p)] ∧ s1.nextRef = s.nextRef + 1) := by
    intro c hc
    cases job with
    | none =>
      rcases createNewPlot_none hc with h1 | ⟨_, _, h1⟩
      · rw [h1]; exact ⟨rfl, Or.inl ⟨rfl, rfl, rfl⟩⟩
      · rw [h1]; exact ⟨rfl, Or.inl ⟨rfl, rfl, rfl⟩⟩
    | some p =>
      obtain ⟨_, _, _, _, _, _, _, _, _, href, hid, _, _, _, hs1⟩ := createNewPlot_some hc
      have hdel : mapDelete s.active p.PlotId = s.active := by
        apply mapDelete_fresh
        intro e he
        have := hfresh e he
        rw [hid]
        omega
      rw [hs1]
      refine ⟨rfl, Or.inr ⟨p, rfl, href, hid, ?_, rfl⟩⟩
      dsimp only
      unfold mapSet
      rw [hdel]
  unfold admission at h
  split at h
  · cases h; exact ⟨rfl, Or.inl ⟨rfl, rfl, rfl⟩⟩
  · split at h
    · exact key h
    · cases h; exact ⟨rfl, Or.inl ⟨rfl, rfl, rfl⟩⟩

theorem count_map_filter_add {α β : Type} [DecidableEq β] (f : α → β) (p : α → Prop)
    [DecidablePred p] (r : β) :
    ∀ l : List α,
      ((l.filter (fun a => decide (¬ p a))).map f).count r +
        ((l.filter (fun a => decide (p a))).map f).count r = (l.map f).count r := by
  intro l
  induction l with
  | nil => rfl
  | cons a l ih =>
    by_cases hp : p a
    · simp only [List.filter_cons, hp, not_true_eq_false, decide_False, decide_True,
        Bool.false_eq_true, if_false, if_true, List.map_cons, List.count_cons]
      omega
    · simp only [List.filter_cons, hp, not_false_eq_true, decide_False, decide_True,
        Bool.false_eq_true, if_false, if_true, List.map_cons, List.count_cons]
      omega

/-- One tick on a well-keyed server whose keys are all older than the second of
the tick. -/
theorem createPlot_inv {s s' : Server} {tick : Tick} {job : Option ActivePlot}
    (h : createPlot s tick = .ok (s', job)) (hwk : WellKeyed s) (hocc : EachOnce s)
    (hfresh : ∀ e ∈ s.active, e.1 < unix tick.now.act) :
    WellKeyed s' ∧ EachOnce s' ∧
    (∀ e ∈ s'.active, e ∈ s.active ∨ e.1 = unix tick.now.act) ∧
    ((job = none ∧ s'.nextRef = s.nextRef) ∨
      ∃ p, job = some p ∧ p.ref = s.nextRef ∧ s'.nextRef = s.nextRef + 1) ∧
    (∃ moved, s'.archive = s.archive ++ moved) ∧
    (∀ r, (r ∈ activeRefs s ∨ ∃ p, job = some p ∧ p.ref = r) →
      (terminal (tick.observe r) → r ∈ archiveRefs s' ∧ r ∉ activeRefs s') ∧
      (¬ terminal (tick.observe r) → r ∈ activeRefs s' ∧ r ∉ archiveRefs s')) := by
  obtain ⟨s1, hadm, hrec⟩ := createPlot_ok h
  obtain ⟨harch, hcase⟩ := admission_spec hadm hfresh
  -- the state after the admission part
  have hwk1 : WellKeyed s1 := by
    rcases hcase with ⟨_, hact, _⟩ | ⟨p, _, _, hid, hact, _⟩
    · unfold WellKeyed; rw [hact]; exact hwk
    · unfold WellKeyed
      rw [hact]
      constructor
      · rw [List.map_append, List.nodup_append]
        refine ⟨hwk.1, by simp, ?_⟩
        intro k hk1 hk2
        obtain ⟨e, he, rfl⟩ := List.mem_map.mp hk1
        have := hfresh e he
        simp only [List.map_cons, List.map_nil, List.mem_singleton] at hk2
        rw [hid] at hk2
        omega
      · intro e he
        rcases List.mem_append.mp he with he | he
        · exact hwk.2 e he
        · simp only [List.mem_singleton] at he
          rw [he]
  have hocc1 : EachOnce s1 := by
    intro r
    have := hocc r
    unfold activeRefs archiveRefs at this ⊢
    rcases hcase with ⟨_, hact, hn⟩ | ⟨p, _, href, _, hact, hn⟩
    · rw [hact, harch, hn]; exact this
    · rw [hact, harch, hn, List.map_append, List.count_append]
      simp only [List.map_cons, List.map_nil, List.count_cons, List.count_nil, href]
      by_cases hr : r = s.nextRef
      · subst hr
        simp at this ⊢
        omega
      · have hne : ¬ (s.nextRef = r) := fun h => hr h.symm
        simp only [beq_iff_eq, hne, if_false] at this ⊢
        by_cases hlt : r < s.nextRef
        · rw [if_pos hlt] at this
          rw [if_pos (by omega)]
          omega
        · rw [if_neg hlt] at this
          rw [if_neg (by omega)]
          omega
  have hs' := reconcile_spec hrec hwk1
  have hactive' : s'.active =
      s1.active.filter (fun e => decide (¬ terminal (tick.observe e.2.ref))) := by rw [hs']
  have harchive' : s'.archive = s1.archive ++
      (s1.active.filter (fun e => decide (terminal (tick.observe e.2.ref)))).map
        (fun e => { e.2 with State := tick.observe e.2.ref }) := by rw [hs']
  have hnext' : s'.nextRef = s1.nextRef := by rw [hs']
  have harchRefs : archiveRefs s' = archiveRefs s1 ++
      ((s1.active.filter (fun e => decide (terminal (tick.observe e.2.ref)))).map
        (fun e => e.2.ref)) := by
    unfold archiveRefs
    rw [harchive', List.map_append, List.map_map]
    rfl
  have hocc' : EachOnce s' := by
    intro r
    have h1 := hocc1 r
    have h2 := count_map_filter_add (fun e : Int × ActivePlot => e.2.ref)
      (fun e => terminal (tick.observe e.2.ref)) r s1.active
    rw [harchRefs, List.count_append, hnext']
    unfold activeRefs at h1 ⊢
    rw [hactive']
    omega
  have hmem1 : ∀ r, (r ∈ activeRefs s ∨ ∃ p, job = some p ∧ p.ref = r) →
      r ∈ activeRefs s1 := by
    intro r hr
    unfold activeRefs at hr ⊢
    rcases hcase with ⟨hj, hact, _⟩ | ⟨p, hj, _, _, hact, _⟩
    · rw [hact]
      rcases hr with hr | ⟨q, hq, _⟩
      · exact hr
      · rw [hj] at hq; cases hq
    · rw [hact, List.map_append]
      rcases hr with hr | ⟨q, hq, hqr⟩
      · exact List.mem_append_left _ hr
      · rw [hj] at hq
        cases hq
        apply List.mem_append_right
        simp [hqr]
  refine ⟨?_, hocc', ?_, ?_, ?_, ?_⟩
  · constructor
    · rw [hactive']
      exact List.Nodup.sublist (List.Sublist.map _ (List.filter_sublist _)) hwk1.1
    · intro e he
      rw [hactive'] at he
      exact hwk1.2 e (List.mem_of_mem_filter he)
  · intro e he
    rw [hactive'] at he
    have he1 := List.mem_of_mem_filter he
    rcases hcase with ⟨_, hact, _⟩ | ⟨p, _, _, hid, hact, _⟩
    · left; rw [← hact]; exact he1
    · rw [hact] at he1
      rcases List.mem_append.mp he1 with he1 | he1
      · exact Or.inl he1
      · right
        simp only [List.mem_singleton] at he1
        rw [he1]
        exact hid
  · rcases hcase with ⟨hj, _, hn⟩ | ⟨p, hj, href, _, _, hn⟩
    · exact Or.inl ⟨hj, by rw [hnext', hn]⟩
    · exact Or.inr ⟨p, hj, href, by rw [hnext', hn]⟩
  · exact ⟨_, by rw [harchive', harch]⟩
  · intro r hr
    have hr1 := hmem1 r hr
    unfold activeRefs at hr1
    obtain ⟨e, he, her⟩ := List.mem_map.mp hr1
    constructor
    · intro ht
      constructor
      · rw [harchRefs]
        apply List.mem_append_right
        apply List.mem_map.mpr
        refine ⟨e, List.mem_filter.mpr ⟨he, ?_⟩, her⟩
        rw [her]
        exact decide_eq_true ht
      · unfold activeRefs
        rw [hactive']
        intro hin
        obtain ⟨e2, he2, her2⟩ := List.mem_map.mp hin
        have := (List.mem_filter.mp he2).2
        rw [her2] at this
        exact (of_decide_eq_true this) ht
    · intro ht
      have hin : r ∈ activeRefs s' := by
        unfold activeRefs
        rw [hactive']
        apply List.mem_map.mpr
        refine ⟨e, List.mem_filter.mpr ⟨he, ?_⟩, her⟩
        rw [her]
        exact decide_eq_true ht
      refine ⟨hin, ?_⟩
      intro hin2
      have h1 := hocc' r
      have c1 := List.count_pos_iff.mpr hin
      have c2 := List.count_pos_iff.mpr hin2
      split at h1 <;> omega

theorem runTicks_cons {s s' : Server} {t : Tick} {ts : List Tick}
    {jobs : List (Option ActivePlot)} (h : runTicks s (t :: ts) = .ok (s', jobs)) :
    ∃ s1 j js, createPlot s t = .ok (s1, j) ∧
      runTicks s1 ts = .ok (s', js) ∧ jobs = j :: js := by
  simp only [runTicks] at h
  split at h
  · cases h
  · rename_i s1 j hstep
    split at h
    · cases h
    · rename_i s2 js hrest
      cases h
      exact ⟨s1, j, js, hstep, hrest, rfl⟩

theorem runTicks_inv :
    ∀ (ticks : List Tick) (s s' : Server) (jobs : List (Option ActivePlot)),
      WellKeyed s → EachOnce s →
      (∀ t ∈ ticks, ∀ e ∈ s.active, e.1 < unix t.now.act) →
      (ticks.map (fun t => unix t.now.act)).Pairwise (· < ·) →
      runTicks s ticks = .ok (s', jobs) →
      WellKeyed s' ∧ EachOnce s' ∧
      (∀ e ∈ s'.active, e ∈ s.active ∨ ∃ t ∈ ticks, e.1 = unix t.now.act) ∧
      (jobs.filterMap id).map (fun p => p.ref) =
        List.range' s.nextRef (s'.nextRef - s.nextRef) ∧
      s.nextRef ≤ s'.nextRef := by
  intro ticks
  induction ticks with
  | nil =>
    intro s s' jobs hwk hocc _ _ h
    simp only [runTicks] at h
    cases h
    exact ⟨hwk, hocc, fun e he => Or.inl he, by simp, Nat.le_refl _⟩
  | cons t ts ih =>
    intro s s' jobs hwk hocc hfresh hsec h
    obtain ⟨s1, j, js, hstep, hrest, rfl⟩ := runTicks_cons h
    rw [List.map_cons, List.pairwise_cons] at hsec
    obtain ⟨hwk1, hocc1, hkeys1, hjob, _, _⟩ :=
      createPlot_inv hstep hwk hocc (hfresh t (List.mem_cons_self _ _))
    have hfresh1 : ∀ t' ∈ ts, ∀ e ∈ s1.active, e.1 < unix t'.now.act := by
      intro t' ht' e he
      rcases hkeys1 e he with he | he
      · exact hfresh t' (List.mem_cons_of_mem _ ht') e he
      · rw [he]
        exact hsec.1 _ (List.mem_map_of_mem (fun t => unix t.now.act) ht')
    obtain ⟨hwk', hocc', hkeys', hrefs, hle⟩ := ih s1 s' js hwk1 hocc1 hfresh1 hsec.2 hrest
    refine ⟨hwk', hocc', ?_, ?_, ?_⟩
    · intro e he
      rcases hkeys' e he with he | ⟨t', ht', he⟩
      · rcases hkeys1 e he with he | he
        · exact Or.inl he
        · exact Or.inr ⟨t, List.mem_cons_self _ _, he⟩
      · exact Or.inr ⟨t', List.mem_cons_of_mem _ ht', he⟩
    · rcases hjob with ⟨hj, hn⟩ | ⟨p, hj, href, hn⟩
      · rw [hj]
        have e0 : List.filterMap id (none :: js) = List.filterMap id js := rfl
        rw [e0, hrefs, hn]
      · rw [hj]
        have e0 : List.filterMap id (some p :: js) = p :: List.filterMap id js := rfl
        rw [e0, List.map_cons, hrefs, hn, href]
        have : s'.nextRef - s.nextRef = (s'.nextRef - (s.nextRef + 1)) + 1 := by omega
        rw [this, List.range'_succ]
    · rcases hjob with ⟨_, hn⟩ | ⟨p, _, _, hn⟩ <;> omega

theorem init_wellKeyed : WellKeyed Server.init := by
  unfold WellKeyed Server.init
  simp

theorem init_eachOnce : EachOnce Server.init := by
  intro r
  simp [activeRefs, archiveRefs, Server.init]

/-- C5, as amended. For every sequence of ticks from the initial state whose
admission time stamps fall into strictly increasing wall-clock seconds: the
jobs admitted so far are numbered 0, 1, 2, ... in the order of admission, and
each of them is exactly once in the active set or in the archive, never in both
and never in neither; a further tick in a later second only appends to the
archive, moves every job that is active during it and observed as Error or
Finished to the archive, and leaves every other active job in the active set
and out of the archive. -/
theorem archived_exactly_once (ticks : List Tick)
    (hsec : (ticks.map (fun t => unix t.now.act)).Pairwise (· < ·))
    (s : Server) (jobs : List (Option ActivePlot))
    (hrun : runTicks Server.init ticks = .ok (s, jobs)) :
    (jobs.filterMap id).map (fun p => p.ref) = List.range s.nextRef ∧
    (∀ r, (activeRefs s).count r + (archiveRefs s).count r = if r < s.nextRef then 1 else 0) ∧
    (∀ (tick : Tick) (s' : Server) (job : Option ActivePlot),
      (∀ t ∈ ticks, unix t.now.act < unix tick.now.act) →
      createPlot s tick = .ok (s', job) →
      (∃ moved, s'.archive = s.archive ++ moved) ∧
      ∀ r, (r ∈ activeRefs s ∨ ∃ p, job = some p ∧ p.ref = r) →
        (terminal (tick.observe r) → r ∈ archiveRefs s' ∧ r ∉ activeRefs s') ∧
        (¬ terminal (tick.observe r) → r ∈ activeRefs s' ∧ r ∉ archiveRefs s')) := by
  obtain ⟨hwk, hocc, hkeys, hrefs, _⟩ :=
    runTicks_inv ticks Server.init s jobs init_wellKeyed init_eachOnce
      (fun _ _ e he => by simp [Server.init] at he) hsec hrun
  refine ⟨?_, hocc, ?_⟩
  · rw [hrefs, List.range_eq_range']
    rfl
  · intro tick s' job hlater hstep
    have hfresh : ∀ e ∈ s.active, e.1 < unix tick.now.act := by
      intro e he
      rcases hkeys e he with he | ⟨t, ht, he⟩
      · simp [Server.init] at he
      · rw [he]; exact hlater t ht
    obtain ⟨_, _, _, _, hmoved, hstepProp⟩ := createPlot_inv hstep hwk hocc hfresh
    exact ⟨hmoved, hstepProp⟩

/-- The example run for C5: after nine ticks job 0 is in the archive and jobs 1
and 2 are active. -/
theorem archived_exactly_once_witness :
    (exampleTicks.map (fun t => unix t.now.act)).Pairwise (· < ·) ∧
    ∃ s jobs, runTicks Server.init exampleTicks = .ok (s, jobs) ∧
      activeRefs s = [1, 2] ∧ archiveRefs s = [0] ∧
      (jobs.filterMap id).map (fun p => p.ref) = List.range s.nextRef ∧
      ∀ r, (activeRefs s).count r + (archiveRefs s).count r = if r < s.nextRef then 1 else 0 :=
  ⟨by decide, _, _, rfl, rfl, rfl,
    (archived_exactly_once exampleTicks (by decide) _ _ rfl).1,
    (archived_exactly_once exampleTicks (by decide) _ _ rfl).2.1⟩

/-- C5 fails when two admissions fall into the same wall-clock second: both
jobs get the key 60, the second assignment replaces the first job in the
active map, and job 0 is neither active nor archived although no tick has
seen it as Error or Finished. -/
theorem job_lost_same_second :
    (runTicks Server.init sameSecond).map
        (fun r => (r.2.map (fun j => j.map (fun p => (p.ref, p.PlotId))),
          activeRefs r.1, archiveRefs r.1)) =
      .ok ([some (0, 60), some (1, 60)], [1], []) := by
  decide

/-- C1 fails when the policy is refreshed with a smaller limit: two jobs run
under a limit of 2, and after the tick whose policy has the limit 1 both are
still in the active set, which then has more jobs than that policy allows. -/
theorem limit_exceeded_after_refresh :
    ∃ s jobs c, runTicks Server.init shrinkingLimit = .ok (s, jobs) ∧
      shrinkingLimit.getLast?.bind (fun t => t.config) = some c ∧
      c.NumberOfParallelPlots = 1 ∧ s.active.length = 2 ∧
      ¬ ((s.active.length : Int) ≤ c.NumberOfParallelPlots) :=
  ⟨_, _, _, rfl, rfl, rfl, rfl, by decide⟩

/-- C1, as amended. Starting from the initial state, after every sequence of
ticks the number of jobs in the active set is at most any bound that is not
negative and that the parallelism limit of no tick of the sequence exceeds; so
it is at most the largest limit among the policies of the ticks so far, and at
most the limit of a policy that does not change. -/
theorem active_within_largest_limit (ticks : List Tick) (bound : Int) (hbound : 0 ≤ bound)
    (hlimits : ∀ t ∈ ticks, ∀ c, t.config = some c → c.NumberOfParallelPlots ≤ bound)
    (s : Server) (jobs : List (Option ActivePlot))
    (hrun : runTicks Server.init ticks = .ok (s, jobs)) :
    (s.active.length : Int) ≤ bound :=
  runTicks_active_le bound ticks Server.init s jobs hlimits
    (by simpa [Server.init] using hbound) hrun

/-- The example run for C1: nine ticks under the example policy, never more than
two active jobs. -/
theorem active_within_largest_limit_witness :
    ∃ s jobs, runTicks Server.init exampleTicks = .ok (s, jobs) ∧
      (s.active.length : Int) ≤ 2 :=
  ⟨_, _, rfl,
    active_within_largest_limit exampleTicks 2 (by decide)
      (by
        intro t ht c hc
        simp only [exampleTicks, tickAt, List.mem_cons, List.mem_singleton,
          List.not_mem_nil, or_false] at ht
        rcases ht with rfl | rfl | rfl | rfl | rfl | rfl | rfl | rfl | rfl <;>
          (cases hc; decide))
      _ _ rfl⟩

theorem reconcileFold_noop (observe : Nat → Int) :
    ∀ (es : List (Int × ActivePlot)) (s : Server),
      (∀ e ∈ es, ¬ terminal (observe e.2.ref)) → es.foldl (reconcileStep observe) s = s := by
  intro es
  induction es with
  | nil => intro s _; rfl
  | cons e es ih =>
    intro s h
    rw [List.foldl_cons]
    have ht : ¬ (observe e.2.ref = PlotFinished ∨ observe e.2.ref = PlotError) :=
      h e (List.mem_cons_self _ _)
    have hstep : reconcileStep observe s e = s := by
      unfold reconcileStep
      dsimp only
      rw [if_neg ht]
    rw [hstep]
    exact ih s (fun x hx => h x (List.mem_cons_of_mem _ hx))

theorem reconcile_noop (s : Server) (tick : Tick) (c : Config) (hc : tick.config = some c)
    (h : ∀ e ∈ s.active, ¬ terminal (tick.observe e.2.ref)) : reconcile s tick = .ok s := by
  unfold reconcile
  split
  · rfl
  · rename_i hnone
    rw [hc] at hnone
    cases hnone
  · rename_i e es c' hact _
    rw [← hact, reconcileFold_noop tick.observe s.active s h]

theorem runTicks_append :
    ∀ (xs ys : List Tick) (s s1 s2 : Server) (js1 js2 : List (Option ActivePlot)),
      runTicks s xs = .ok (s1, js1) → runTicks s1 ys = .ok (s2, js2) →
      runTicks s (xs ++ ys) = .ok (s2, js1 ++ js2) := by
  intro xs
  induction xs with
  | nil =>
    intro ys s s1 s2 js1 js2 h1 h2
    simp only [runTicks] at h1
    cases h1
    exact h2
  | cons x xs ih =>
    intro ys s s1 s2 js1 js2 h1 h2
    obtain ⟨sa, j, js, hstep, hrest, rfl⟩ := runTicks_cons h1
    have := ih ys sa s1 s2 js js2 hrest h2
    rw [List.cons_append]
    simp only [runTicks, hstep, this]
    rfl

/-- The result of an admission, given what the two lookups return. -/
theorem createNewPlot_admit_eq (s : Server) (config : Config) (now : Clock)
    (plotDir targetDir : String)
    (hnow : ¬ now.check < s.targetDelayStartTime)
    (ht0 : 0 ≤ s.currentTemp) (hd0 : 0 ≤ s.currentTarget)
    (hd1 : s.currentTarget < config.TargetDirectory.length)
    (hplot : config.TempDirectory.get? s.currentTemp.toNat = some plotDir)
    (htarget : config.TargetDirectory.get? s.currentTarget.toNat = some targetDir) :
    createNewPlot s config now =
      .ok ({ s with
              currentTemp :=
                if s.currentTemp + 1 ≥ config.TempDirectory.length then 0 else s.currentTemp + 1
              currentTarget := s.currentTarget + 1
              active := mapSet s.active (unix now.act)
                { ref := s.nextRef, PlotId := unix now.act, TargetDir := targetDir,
                  PlotDir := plotDir, Fingerprint := config.Fingerprint, Phase := ['N', 'A'],
                  Tail := [], State := PlotRunning, Id := [] }
              nextRef := s.nextRef + 1 },
            some { ref := s.nextRef, PlotId := unix now.act, TargetDir := targetDir,
                   PlotDir := plotDir, Fingerprint := config.Fingerprint, Phase := ['N', 'A'],
                   Tail := [], State := PlotRunning, Id := [] }) := by
  have hlt : s.currentTemp.toNat < config.TempDirectory.length :=
    (List.get?_eq_some.mp hplot).1
  have h1 : ¬ (config.TempDirectory.length = 0 ∨ config.TargetDirectory.length = 0) := by
    omega
  have h2 : ¬ s.currentTarget ≥ config.TargetDirectory.length := by omega
  have i1 : index config.TempDirectory s.currentTemp = .ok plotDir := by
    unfold index
    rw [if_pos ht0, hplot]
  have i2 : index config.TargetDirectory s.currentTarget = .ok targetDir := by
    unfold index
    rw [if_pos hd0, htarget]
  unfold createNewPlot
  rw [if_neg h1, if_neg hnow, if_neg h2, i1]
  dsimp only
  rw [i2]

/-- A tick whose admission part makes an attempt and whose loop finds no job
in a terminal state. -/
theorem createPlot_attempt (s s1 : Server) (tick : Tick) (c : Config) (j : Option ActivePlot)
    (hc : tick.config = some c) (hlen : (s.active.length : Int) < c.NumberOfParallelPlots)
    (hnew : createNewPlot s c tick.now = .ok (s1, j))
    (hrun : ∀ e ∈ s1.active, ¬ terminal (tick.observe e.2.ref)) :
    createPlot s tick = .ok (s1, j) := by
  have hadm : admission s tick = .ok (s1, j) := by
    unfold admission
    rw [hc]
    dsimp only
    rw [if_pos hlen, hnew]
  unfold createPlot
  rw [hadm]
  dsimp only
  rw [reconcile_noop s1 tick c hc hrun]

/-- A tick at which the active set is full. -/
theorem createPlot_full (s s' : Server) (tick : Tick) (c : Config)
    (hc : tick.config = some c) (hlen : ¬ (s.active.length : Int) < c.NumberOfParallelPlots)
    (hrec : reconcile s tick = .ok s') :
    createPlot s tick = .ok (s', none) := by
  have hadm : admission s tick = .ok (s, none) := by
    unfold admission
    rw [hc]
    dsimp only
    rw [if_neg hlen]
  unfold createPlot
  rw [hadm]
  dsimp only
  rw [hrec]

theorem createPlot_idle (s : Server) (tick : Tick) (c : Config)
    (hc : tick.config = some c) (hlen : ¬ (s.active.length : Int) < c.NumberOfParallelPlots)
    (hrun : ∀ e ∈ s.active, ¬ terminal (tick.observe e.2.ref)) :
    createPlot s tick = .ok (s, none) :=
  createPlot_full s s tick c hc hlen (reconcile_noop s tick c hc hrun)

theorem runTicks_idle (s : Server) (c : Config)
    (hlen : ¬ (s.active.length : Int) < c.NumberOfParallelPlots) :
    ∀ ticks : List Tick,
      (∀ t ∈ ticks,
        t.config = some c ∧ ∀ e ∈ s.active, ¬ terminal (t.observe e.2.ref)) →
      runTicks s ticks = .ok (s, List.replicate ticks.length none) := by
  intro ticks
  induction ticks with
  | nil => intro _; rfl
  | cons t ts ih =>
    intro h
    obtain ⟨hc, hrun⟩ := h t (List.mem_cons_self _ _)
    have h1 := createPlot_idle s t c hc hlen hrun
    have h2 := ih (fun x hx => h x (List.mem_cons_of_mem _ hx))
    simp only [runTicks, h1, h2, List.length_cons, List.replicate_succ]

theorem allRunning_not_terminal (r : Nat) : ¬ terminal (allRunning r) := by
  unfold terminal allRunning
  decide

theorem firstFinished_not_terminal (r : Nat) (h : r ≠ 0) : ¬ terminal (firstFinished r) := by
  unfold terminal firstFinished
  rw [if_neg h]
  decide

theorem scenario_first (c1 : Clock) (h1 : zeroTime ≤ c1.check) :
    createPlot Server.init (scenarioTick c1 allRunning) =
      .ok (firstRunning (unix c1.act), some (newPlot 0 (unix c1.act) "/s0" "/d0")) := by
  have hnow : ¬ (scenarioTick c1 allRunning).now.check < Server.init.targetDelayStartTime := by
    simp only [scenarioTick, Server.init]
    omega
  apply createPlot_attempt _ _ _ examplePolicy _ rfl (by decide)
  · rw [createNewPlot_admit_eq Server.init examplePolicy _ "/s0" "/d0" hnow
      (by decide) (by decide) (by decide) rfl rfl]
    simp only [mapSet, mapDelete, Server.init, List.filter_nil, List.nil_append, scenarioTick,
      newPlot, examplePolicy, firstRunning]
    rfl
  · exact fun e _ => allRunning_not_terminal e.2.ref

theorem scenario_second (k1 : Int) (c2 : Clock) (h2 : zeroTime ≤ c2.check)
    (hk : k1 ≠ unix c2.act) :
    createPlot (firstRunning k1) (scenarioTick c2 allRunning) =
      .ok (bothRunning k1 (unix c2.act), some (newPlot 1 (unix c2.act) "/s1" "/d1")) := by
  have hnow : ¬ (scenarioTick c2 allRunning).now.check <
      (firstRunning k1).targetDelayStartTime := by
    simp only [scenarioTick, firstRunning]
    omega
  apply createPlot_attempt _ _ _ examplePolicy _ rfl (by simp [firstRunning, examplePolicy])
  · rw [createNewPlot_admit_eq (firstRunning k1) examplePolicy _ "/s1" "/d1" hnow
      (by simp [firstRunning]) (by simp [firstRunning])
      (by simp [firstRunning, examplePolicy]) rfl rfl]
    simp only [mapSet, mapDelete, scenarioTick, newPlot, examplePolicy, bothRunning,
      firstRunning, List.filter_cons, List.filter_nil, ne_eq, hk, not_false_eq_true,
      decide_True, if_true, List.cons_append, List.nil_append]
    rfl
  · exact fun e _ => allRunning_not_terminal e.2.ref

theorem scenario_idle (k1 k2 : Int) (idle : List Clock) :
    runTicks (bothRunning k1 k2) (idle.map (fun c => scenarioTick c allRunning)) =
      .ok (bothRunning k1 k2, List.replicate idle.length none) := by
  have h := runTicks_idle (bothRunning k1 k2) examplePolicy
    (by simp [bothRunning, examplePolicy])
    (idle.map (fun c => scenarioTick c allRunning))
    (by
      intro t ht
      obtain ⟨c, _, rfl⟩ := List.mem_map.mp ht
      exact ⟨rfl, fun e _ => allRunning_not_terminal e.2.ref⟩)
  rw [h, List.length_map]

theorem scenario_finish (k1 k2 : Int) (hk : k1 ≠ k2) (cf : Clock) :
    createPlot (bothRunning k1 k2) (scenarioTick cf firstFinished) =
      .ok (oneFinished k1 k2, none) := by
  apply createPlot_full _ _ _ examplePolicy rfl (by simp [bothRunning, examplePolicy])
  have hrec := reconcileFold_spec firstFinished (bothRunning k1 k2).active []
    (bothRunning k1 k2) rfl (by simp [bothRunning, hk]) (by simp [bothRunning, newPlot])
  unfold reconcile
  simp only [bothRunning, scenarioTick] at hrec ⊢
  rw [hrec]
  simp [firstFinished, terminal, newPlot, oneFinished, PlotFinished, PlotRunning, PlotError]

theorem firstFinished_oneFinished (k1 k2 : Int) :
    ∀ e ∈ (oneFinished k1 k2).active, ¬ terminal (firstFinished e.2.ref) := by
  intro e he
  simp only [oneFinished, List.mem_singleton] at he
  rw [he]
  exact firstFinished_not_terminal 1 (by decide)

theorem scenario_wraparound (k1 k2 : Int) (cw : Clock) (hw : zeroTime ≤ cw.check) :
    createPlot (oneFinished k1 k2) (scenarioTick cw firstFinished) =
      .ok (afterWraparound k1 k2 (cw.act + 5 * minute), none) := by
  have hnow : ¬ (scenarioTick cw firstFinished).now.check <
      (oneFinished k1 k2).targetDelayStartTime := by
    simp only [scenarioTick, oneFinished]
    omega
  have hm : minutes examplePolicy.StaggeringDelay = 5 * minute := by decide
  apply createPlot_attempt _ _ _ examplePolicy _ rfl (by simp [oneFinished, examplePolicy])
  · rw [createNewPlot_wrap (oneFinished k1 k2) examplePolicy _ (by decide) (by decide) hnow
      (by simp [oneFinished, examplePolicy]), hm]
    rfl
  · exact firstFinished_oneFinished k1 k2

theorem scenario_cooldown (k1 k2 deadline : Int) (c : Clock) (h : c.check < deadline) :
    createPlot (afterWraparound k1 k2 deadline) (scenarioTick c firstFinished) =
      .ok (afterWraparound k1 k2 deadline, none) := by
  apply createPlot_attempt _ _ _ examplePolicy _ rfl
    (by simp [afterWraparound, examplePolicy])
  · exact createNewPlot_cooldown _ _ _ h
  · exact firstFinished_oneFinished k1 k2

theorem scenario_cooldown_run (k1 k2 deadline : Int) :
    ∀ cool : List Clock, (∀ c ∈ cool, c.check < deadline) →
      runTicks (afterWraparound k1 k2 deadline)
          (cool.map (fun c => scenarioTick c firstFinished)) =
        .ok (afterWraparound k1 k2 deadline, List.replicate cool.length none) := by
  intro cool
  induction cool with
  | nil => intro _; rfl
  | cons c cs ih =>
    intro h
    have h1 := scenario_cooldown k1 k2 deadline c (h c (List.mem_cons_self _ _))
    have h2 := ih (fun x hx => h x (List.mem_cons_of_mem _ hx))
    simp only [List.map_cons, runTicks, h1, h2, List.length_cons, List.replicate_succ]

theorem scenario_readmission (k1 k2 deadline : Int) (cr : Clock)
    (hready : ¬ cr.check < deadline) (hk : k2 ≠ unix cr.act) :
    createPlot (afterWraparound k1 k2 deadline) (scenarioTick cr firstFinished) =
      .ok (afterReadmission k1 k2 (unix cr.act) deadline,
        some (newPlot 2 (unix cr.act) "/s0" "/d0")) := by
  apply createPlot_attempt _ _ _ examplePolicy _ rfl
    (by simp [afterWraparound, examplePolicy])
  · rw [createNewPlot_admit_eq (afterWraparound k1 k2 deadline) examplePolicy
      (scenarioTick cr firstFinished).now "/s0" "/d0"
      hready (by simp [afterWraparound]) (by simp [afterWraparound])
      (by simp [afterWraparound, examplePolicy]) rfl rfl]
    simp only [mapSet, mapDelete, scenarioTick, newPlot, examplePolicy, afterWraparound,
      afterReadmission, List.filter_cons, List.filter_nil, ne_eq, hk, not_false_eq_true,
      decide_True, if_true, List.cons_append, List.nil_append]
    rfl
  · intro e he
    simp only [afterReadmission, List.mem_cons, List.mem_singleton, List.not_mem_nil,
      or_false] at he
    rcases he with rfl | rfl
    · exact firstFinished_not_terminal 1 (by decide)
    · exact firstFinished_not_terminal 2 (by decide)

theorem scenario_start (c1 c2 : Clock) (idle : List Clock) (cf cw : Clock)
    (h1 : zeroTime ≤ c1.check) (h2 : zeroTime ≤ c2.check) (hw : zeroTime ≤ cw.check)
    (hsec : unix c1.act ≠ unix c2.act) :
    runTicks Server.init (scenarioStart c1 c2 idle cf cw) =
      .ok (afterWraparound (unix c1.act) (unix c2.act) (cw.act + 5 * minute),
        [some (newPlot 0 (unix c1.act) "/s0" "/d0"),
         some (newPlot 1 (unix c2.act) "/s1" "/d1")] ++
          (List.replicate idle.length none ++ [none, none])) := by
  have hA : runTicks Server.init [scenarioTick c1 allRunning, scenarioTick c2 allRunning] =
      .ok (bothRunning (unix c1.act) (unix c2.act),
        [some (newPlot 0 (unix c1.act) "/s0" "/d0"),
         some (newPlot 1 (unix c2.act) "/s1" "/d1")]) := by
    simp only [runTicks, scenario_first c1 h1, scenario_second (unix c1.act) c2 h2 hsec]
  have hC : runTicks (bothRunning (unix c1.act) (unix c2.act))
      [scenarioTick cf firstFinished, scenarioTick cw firstFinished] =
      .ok (afterWraparound (unix c1.act) (unix c2.act) (cw.act + 5 * minute),
        [none, none]) := by
    simp only [runTicks, scenario_finish (unix c1.act) (unix c2.act) hsec cf,
      scenario_wraparound (unix c1.act) (unix c2.act) cw hw]
  have hBC := runTicks_append _ _ _ _ _ _ _
    (scenario_idle (unix c1.act) (unix c2.act) idle) hC
  exact runTicks_append _ _ _ _ _ _ _ hA hBC

/-- The admission step does all its assignments under the server lock. -/
theorem createNewPlotEvents_guarded (server : Server) (config : Config) (now : Clock) :
    guarded [] (createNewPlotEvents server config now) = true := by
  unfold createNewPlotEvents
  split
  · decide
  · split
    · decide
    · split
      · decide
      · split
        · decide
        · split <;> split <;> decide

/-- C10. In `processLogs` a line with the identifier marker, and likewise a line
with the phase marker, is assigned to `Id` or `Phase` before the lock of the job
is taken; in `createPlot` the append to the archive and the removal from the
active map of a finished job happen after the admission part has released the
server lock. Only the assignments of `Tail` and those of `createNewPlot` are
made under the lock. -/
theorem writes_outside_the_lock :
    processLineEvents (newPlot 0 60 "/s0" "/d0") "ID: abc123\n".toList =
      [.write .id, .lock .plotLock, .write .tail, .unlock .plotLock] ∧
    guarded [] (processLineEvents (newPlot 0 60 "/s0" "/d0") "ID: abc123\n".toList) = false ∧
    guarded []
      (processLineEvents (newPlot 0 60 "/s0" "/d0")
        "Starting phase 1/4: Forward Propagation\n".toList) = false ∧
    createPlotEvents oneActive (tickAt (some examplePolicy) 2 firstFinished) =
      [.rlock .configLock, .lock .serverLock, .write .currentTemp, .write .currentTemp,
       .write .currentTarget, .write .active, .unlock .serverLock, .runlock .configLock,
       .write .archive, .write .active] ∧
    guarded [] (createPlotEvents oneActive (tickAt (some examplePolicy) 2 firstFinished)) =
      false := by
  decide

/-- C8 fails as stated: in the example with ticks at minutes 1 to 9 and job 0
seen finished at tick 3, tick 4 is the first with a free slot and admits
nothing, and tick 5, the very next one, admits nothing either; after tick 4 one
job is active, the destination cursor is 0 and the deadline is minute 9. -/
theorem next_tick_after_wraparound_admits_nothing :
    (runTicks Server.init exampleTicks).map (fun r => admittedDirs r.2) =
      .ok [some ("/s0", "/d0"), some ("/s1", "/d1"), none, none, none, none, none, none,
           some ("/s0", "/d0")] ∧
    (runTicks Server.init (exampleTicks.take 4)).map
        (fun r => (r.1.active.length, r.1.currentTarget, r.1.targetDelayStartTime)) =
      .ok (1, 0, 9 * minute) := by
  decide

/-- C8, as amended. In the example (two scratch directories, two destinations,
parallelism 2, stagger 5 minutes), for all clock readings of the ticks such that
no tick is before the zero time and the admissions fall into different seconds:
tick 1 admits a job on `/s0`, `/d0`, tick 2 a job on `/s1`, `/d1`; the ticks
during which both run admit nothing; the tick that sees job 0 finished archives
it and admits nothing; the next tick, the first with a free slot, admits nothing,
resets the destination cursor and sets the deadline to its second clock reading
plus five minutes. From there every tick that starts at most four minutes after
the start of the wraparound tick admits nothing and changes nothing, every tick
that starts before the deadline admits nothing, and the first tick that does
not start before the deadline admits a job on `/s0`, `/d0`. -/
theorem wraparound_costs_the_cooldown (c1 c2 cf cw cr : Clock) (idle cool : List Clock)
    (h1 : zeroTime ≤ c1.check) (h2 : zeroTime ≤ c2.check) (hw : zeroTime ≤ cw.check)
    (hsec : unix c1.act ≠ unix c2.act) (hsec' : unix c2.act ≠ unix cr.act)
    (hcool : ∀ c ∈ cool, c.check < cw.act + 5 * minute)
    (hready : ¬ cr.check < cw.act + 5 * minute) :
    (∃ jobs,
      runTicks Server.init (scenarioStart c1 c2 idle cf cw) =
        .ok (afterWraparound (unix c1.act) (unix c2.act) (cw.act + 5 * minute), jobs) ∧
      admittedDirs jobs =
        [some ("/s0", "/d0"), some ("/s1", "/d1")] ++
          (List.replicate idle.length none ++ [none, none])) ∧
    (∀ c : Clock, cw.check ≤ cw.act → c.check ≤ cw.check + 4 * minute →
      createPlot (afterWraparound (unix c1.act) (unix c2.act) (cw.act + 5 * minute))
          (scenarioTick c firstFinished) =
        .ok (afterWraparound (unix c1.act) (unix c2.act) (cw.act + 5 * minute), none)) ∧
    (∃ jobs,
      runTicks Server.init (scenarioRun c1 c2 idle cf cw cool cr) =
        .ok (afterReadmission (unix c1.act) (unix c2.act) (unix cr.act)
              (cw.act + 5 * minute), jobs) ∧
      admittedDirs jobs =
        [some ("/s0", "/d0"), some ("/s1", "/d1")] ++
          (List.replicate idle.length none ++ [none, none]) ++
          (List.replicate cool.length none ++ [some ("/s0", "/d0")])) := by
  have hstart := scenario_start c1 c2 idle cf cw h1 h2 hw hsec
  have hcoolrun := scenario_cooldown_run (unix c1.act) (unix c2.act) (cw.act + 5 * minute)
    cool hcool
  have hre : runTicks (afterWraparound (unix c1.act) (unix c2.act) (cw.act + 5 * minute))
      [scenarioTick cr firstFinished] =
      .ok (afterReadmission (unix c1.act) (unix c2.act) (unix cr.act) (cw.act + 5 * minute),
        [some (newPlot 2 (unix cr.act) "/s0" "/d0")]) := by
    simp only [runTicks, scenario_readmission (unix c1.act) (unix c2.act)
      (cw.act + 5 * minute) cr hready hsec']
  have htail := runTicks_append _ _ _ _ _ _ _ hcoolrun hre
  have hall := runTicks_append _ _ _ _ _ _ _ hstart htail
  refine ⟨⟨_, hstart, ?_⟩, ?_, ⟨_, hall, ?_⟩⟩
  · simp [admittedDirs, newPlot]
  · intro c hgap hc
    apply scenario_cooldown
    unfold minute at hc ⊢
    omega
  · simp [admittedDirs, newPlot]

/-- The example run of C8 with ticks one minute apart whose second clock reading
is a microsecond after the first: the tick at minute 10, five minutes after the
wraparound tick, still starts before the deadline, and the job on `/s0`, `/d0`
is admitted at minute 11. -/
theorem wraparound_costs_the_cooldown_witness :
    (∀ c ∈ [clockGap 6, clockGap 7, clockGap 8, clockGap 9, clockGap 10],
      c.check < (clockGap 5).act + 5 * minute) ∧
    ¬ (clockGap 11).check < (clockGap 5).act + 5 * minute ∧
    ∃ jobs,
      runTicks Server.init gapRun =
        .ok (afterReadmission (unix (clockGap 1).act) (unix (clockGap 2).act)
              (unix (clockGap 11).act) ((clockGap 5).act + 5 * minute), jobs) ∧
      admittedDirs jobs =
        [some ("/s0", "/d0"), some ("/s1", "/d1"), none, none, none, none, none, none, none,
         none, some ("/s0", "/d0")] := by
  obtain ⟨_, _, jobs, hrun, hdirs⟩ :=
    wraparound_costs_the_cooldown (clockGap 1) (clockGap 2) (clockGap 4) (clockGap 5)
      (clockGap 11) [clockGap 3] [clockGap 6, clockGap 7, clockGap 8, clockGap 9, clockGap 10]
      (by decide) (by decide) (by decide) (by decide) (by decide) (by decide) (by decide)
  exact ⟨by decide, by decide, jobs, hrun, hdirs⟩

end PlotNG
